import Mathlib

/-!
Verification of the change-classification core of the kiro-git-message-gen
extension against its natural-language specification.

The TypeScript sources embedded here are:
  src/services/CommitMessageGenerator.ts
    (CommitMessageGeneratorImpl.truncateMessage, validateCommitMessage,
     validateConventionalFormat, fixCommitType, fixConventionalFormat,
     generateWithFallback; ChangeAnalysisServiceImpl.analyzeChanges,
     inferCommitType, detectScope, categorizeFilesByType, assessImpactLevel,
     generateDescription, getActionWord, generateBody)
  src/services/GitService.ts lines 378-819
    (the FallbackCommitGenerator class of the non-AI template path:
     analyzeChanges, determineScope, cleanScopeName, generateDescription,
     formatSubject, applyCustomTemplate, generateBody, generateMessage)
  src/services/AIService.ts (error class hierarchy)
  src/services/ErrorHandler.ts (error class hierarchy)

Strings are modelled as `List Char` (JavaScript strings are arrays of UTF-16
code units; every path and message used here is plain ASCII, where the two
views agree).  JavaScript numbers are IEEE-754 binary64; integer counts are
modelled as `Nat`, and the two places arithmetic leaves the integers are
modelled exactly:
  * classifier scores are kept in tenths of a point (the only products the
    code performs are `weight * 1.5` with an integer weight, exact in
    binary64 and in tenths, and `weight * 1.3`, exact in tenths and
    unreachable for the shipped pattern table since no file-type pattern
    carries commit type refactor or fix);
  * the truncation threshold `maxLength * 0.7` is computed as the exact
    binary64 product (mantissa/exponent pair, round to nearest, ties to
    even), see `jsMul07`.
-/

/-! ### Characters and strings -/

/-- ASCII lower-casing, the effect of a `/i` regex flag on the ASCII-only
pattern tables of the source. -/
def asciiLower (c : Char) : Char :=
  if 'A' ≤ c ∧ c ≤ 'Z' then Char.ofNat (c.toNat + 32) else c

/-- Lower-case a path for case-insensitive matching. -/
def lowerStr (s : List Char) : List Char := s.map asciiLower

/-- Boolean prefix check on character lists. -/
def isPfxOf : List Char → List Char → Bool
  | [], _ => true
  | _ :: _, [] => false
  | a :: as, b :: bs => a == b && isPfxOf as bs

/-- Boolean suffix check on character lists. -/
def isSfxOf (a b : List Char) : Bool := isPfxOf a.reverse b.reverse

/-- Boolean substring (contiguous) check on character lists. -/
def containsSeq (pat : List Char) : List Char → Bool
  | [] => pat.isEmpty
  | c :: cs => isPfxOf pat (c :: cs) || containsSeq pat cs

/-- `String.prototype.includes(":")`: the subject contains a given char. -/
def containsChar (c : Char) (s : List Char) : Bool := s.any (fun d => d == c)

/-- The whitespace set of `String.prototype.trim()` (the code points the
source's subjects can actually contain; full ECMA-262 WhiteSpace also has
more exotic Unicode spaces, irrelevant to ASCII commit subjects). -/
def isJsWhitespace (c : Char) : Bool :=
  c == ' ' || c == '\t' || c == '\n' || c == '\r' ||
  c == Char.ofNat 11 || c == Char.ofNat 12 || c == Char.ofNat 0xA0 || c == Char.ofNat 0xFEFF

/-- `String.prototype.trim()`. -/
def jsTrim (s : List Char) : List Char :=
  ((s.dropWhile isJsWhitespace).reverse.dropWhile isJsWhitespace).reverse

/-- Split a character list on a separator character; `"a/b".split("/")`
semantics (always at least one, possibly empty, segment). -/
def splitOnChar (sep : Char) : List Char → List (List Char)
  | [] => [[]]
  | c :: cs =>
    let r := splitOnChar sep cs
    if c == sep then [] :: r
    else
      match r with
      | [] => [[c]]
      | h :: t => (c :: h) :: t

/-- `file.path.split("/").pop() || file.path`: the base filename, falling
back to the whole path when the last segment is empty. -/
def jsBasename (p : List Char) : List Char :=
  match (splitOnChar '/' p).getLast? with
  | none => p
  | some l => if l.isEmpty then p else l

/-- Ends-with on a lower-cased path for any of the given (lower-case) literal
suffixes; models an `\.(a|b|...)$/i` regex. -/
def endsWithAny (sfxs : List String) (p : List Char) : Bool :=
  sfxs.any (fun q => isSfxOf q.data (lowerStr p))

/-- Starts-with on a lower-cased path for any of the given (lower-case)
literal prefixes; models a `^(a|b|...)/i` regex. -/
def beginsWithAny (pfxs : List String) (p : List Char) : Bool :=
  pfxs.any (fun q => isPfxOf q.data (lowerStr p))

/-- Whole-string equality against any of the given (lower-case) literals;
models a `^(a|b|...)$/i` regex. -/
def equalsAny (lits : List String) (p : List Char) : Bool :=
  lits.any (fun q => lowerStr p == q.data)

/-! ### Data model (src/interfaces) -/

/-- `CommitType` enum from src/interfaces/CommitMessageGenerator.ts, in
declaration order (which is also `Object.values` iteration order). -/
inductive CommitType
  | feat | fix | docs | style | refactor | test | chore
  deriving DecidableEq, Repr

/-- The string value of each `CommitType` enum member. -/
def CommitType.str : CommitType → String
  | .feat => "feat" | .fix => "fix" | .docs => "docs" | .style => "style"
  | .refactor => "refactor" | .test => "test" | .chore => "chore"

/-- `Object.values(CommitType)` order: initialization and iteration order of
the score map in `inferCommitType`. -/
def commitTypeOrder : List CommitType :=
  [.feat, .fix, .docs, .style, .refactor, .test, .chore]

/-- Impact level band. -/
inductive Impact
  | minor | moderate | major
  deriving DecidableEq, Repr

/-- Per-file status from src/interfaces/GitService.ts. -/
inductive FileStatus
  | added | modified | deleted | renamed
  deriving DecidableEq, Repr

/-- `ChangedFile` from src/interfaces/GitService.ts. -/
structure ChangedFile where
  path : List Char
  status : FileStatus
  additions : Nat
  deletions : Nat
  diff : List Char
  deriving DecidableEq, Repr

/-- `GitDiff` from src/interfaces/GitService.ts. -/
structure GitDiff where
  files : List ChangedFile
  additions : Nat
  deletions : Nat
  summary : List Char
  deriving DecidableEq, Repr

/-- Per-file change counts as passed to `inferCommitType`. -/
structure Change where
  additions : Nat
  deletions : Nat
  deriving DecidableEq, Repr

/-- `ChangeAnalysis` from src/interfaces/CommitMessageGenerator.ts. -/
structure ChangeAnalysis where
  commitType : CommitType
  scope : Option String
  description : List Char
  impactLevel : Impact
  fileTypes : List String
  deriving DecidableEq, Repr

/-- Commit style preference. -/
inductive CommitStyle
  | conventional | custom
  deriving DecidableEq, Repr

/-- `AnalysisSettings` from src/interfaces/Configuration.ts. -/
structure AnalysisSettings where
  enableFileTypeAnalysis : Bool
  enableScopeInference : Bool
  enableImpactAnalysis : Bool
  deriving DecidableEq, Repr

/-- `UserPreferences` from src/interfaces/Configuration.ts (templates
omitted: unused by the embedded functions). -/
structure UserPreferences where
  commitStyle : CommitStyle
  includeBody : Bool
  customTypes : List CommitType
  analysisSettings : AnalysisSettings
  deriving DecidableEq, Repr

/-- `GenerationOptions` from src/interfaces/CommitMessageGenerator.ts. -/
structure GenerationOptions where
  includeScope : Bool
  commitType : Option String
  customTemplate : Option (List Char)
  maxLength : Nat
  deriving DecidableEq, Repr

/-- `CommitMessage` from src/interfaces/CommitMessageGenerator.ts. -/
structure CommitMessage where
  subject : List Char
  body : Option (List Char)
  type : String
  scope : Option String
  isConventional : Bool
  deriving DecidableEq, Repr

/-! ### Impact assessor (`ChangeAnalysisServiceImpl.assessImpactLevel`) -/

/-- `assessImpactLevel(additions, deletions, fileCount)` from
src/services/CommitMessageGenerator.ts lines 905-920, transliterated. -/
def assessImpactLevel (additions deletions fileCount : Nat) : Impact :=
  let totalChanges := additions + deletions
  if fileCount > 10 ∨ totalChanges > 200 then .major
  else if fileCount > 3 ∨ totalChanges > 50 then .moderate
  else .minor

/-- Claim C1: the impact assessor returns major exactly when fileCount > 10
or additions+deletions > 200; otherwise moderate exactly when fileCount > 3
or additions+deletions > 50; otherwise minor. -/
theorem claim_C1 (a d n : Nat) :
    (assessImpactLevel a d n = .major ↔ (n > 10 ∨ a + d > 200)) ∧
    (assessImpactLevel a d n = .moderate ↔
      (¬(n > 10 ∨ a + d > 200) ∧ (n > 3 ∨ a + d > 50))) ∧
    (assessImpactLevel a d n = .minor ↔
      (¬(n > 10 ∨ a + d > 200) ∧ ¬(n > 3 ∨ a + d > 50))) := by
  unfold assessImpactLevel
  by_cases h1 : n > 10 ∨ a + d > 200 <;>
    by_cases h2 : n > 3 ∨ a + d > 50 <;>
      simp [h1, h2]

/-- Claim C5 counterexample: the spec's fourth impact test vector fails on
the code: `assess(100,100,1)` has total change 200, which is not strictly
greater than the 200 threshold, so the code returns moderate, not major. -/
theorem claim_C5_counterexample :
    assessImpactLevel 100 100 1 ≠ .major ∧ assessImpactLevel 100 100 1 = .moderate := by
  constructor <;> decide

/-- Claim C5 (amended): the first three spec vectors hold, and
`assess(100,100,1)` = moderate (total change 200 does not exceed the
strictly-greater-than-200 major threshold). -/
theorem claim_C5_amended :
    assessImpactLevel 5 5 2 = .minor ∧
    assessImpactLevel 25 25 4 = .moderate ∧
    assessImpactLevel 0 0 15 = .major ∧
    assessImpactLevel 100 100 1 = .moderate := by
  refine ⟨?_, ?_, ?_, ?_⟩ <;> decide

/-! ### Message truncation (`CommitMessageGeneratorImpl.truncateMessage`)

The source compares `lastSpace > maxLength * 0.7` with IEEE-754 binary64
arithmetic.  `0.7` is not representable; its double value is
`6305039478318694 / 2^53` (`0.7 * 2^53 = 6305039478318694.4`, rounded to
nearest).  The product with `maxLength` is again rounded to 53 mantissa
bits, round to nearest, ties to even.  `jsMul07` computes that product
exactly as a mantissa/exponent pair for `maxLength ≥ 2` (all claims range
over `maxLength ∈ [20,100]`). -/

/-- Mantissa of the binary64 value of the literal `0.7`. -/
def q07num : Nat := 6305039478318694

/-- Fuel-driven floor of log2 (kernel-reducible, unlike `Nat.log2`). -/
def floorLog2Aux : Nat → Nat → Nat
  | 0, _ => 0
  | fuel + 1, n => if n ≤ 1 then 0 else floorLog2Aux fuel (n / 2) + 1

/-- Floor of log2 of a positive natural. -/
def floorLog2 (n : Nat) : Nat := floorLog2Aux n n

/-- The exact binary64 product `maxLength * 0.7` as `(mantissa, exponent)`,
value `mantissa * 2^exponent / 2^52`; round to nearest, ties to even.
Faithful for `max ≥ 2` (so the product is ≥ 1 and the exponent is
nonnegative). -/
def jsMul07 (max : Nat) : Nat × Nat :=
  let num := max * q07num
  let e := floorLog2 (num / 2 ^ 53)
  let d := 2 ^ (e + 1)
  let m0 := num / d
  let r := num % d
  let m := if 2 * r < d then m0
           else if d < 2 * r then m0 + 1
           else if m0 % 2 = 0 then m0 else m0 + 1
  (m, e)

/-- The comparison `s > maxLength * 0.7` of the source, on the exact
binary64 threshold. -/
def gtThr07 (s : Int) (max : Nat) : Bool :=
  let p := jsMul07 max
  s * 2 ^ 52 > (p.1 : Int) * 2 ^ p.2

/-- `truncated.lastIndexOf(" ")`: index of the last space, `-1` if none. -/
def lastSpaceIdx : List Char → Int
  | [] => -1
  | c :: cs =>
    let r := lastSpaceIdx cs
    if r ≥ 0 then r + 1
    else if c == ' ' then 0 else -1

/-- The literal `"..."` appended by truncation. -/
def dots : List Char := ['.', '.', '.']

/-- `truncateMessage(message, maxLength)` from
src/services/CommitMessageGenerator.ts lines 454-470, transliterated
(`substring(0, maxLength - 3)` clamps a negative bound to 0, as does `Nat`
subtraction in `List.take`). -/
def truncateMessage (message : List Char) (maxLength : Nat) : List Char :=
  if message.length ≤ maxLength then message
  else if gtThr07 (lastSpaceIdx (message.take (maxLength - 3))) maxLength then
    (message.take (maxLength - 3)).take (lastSpaceIdx (message.take (maxLength - 3))).toNat ++ dots
  else message.take (maxLength - 3) ++ dots

/-- The behaviour claim C2 states for `truncateMessage`, verbatim: identity
under the limit; over the limit, length ≤ max, `"..."` suffix, and a
word-boundary cut exactly when the last whitespace boundary of the first
`max - 3` characters lies at least 70% of `maxLength` into the string
(`10 * boundary ≥ 7 * maxLength`), otherwise a hard cut after `max - 3`
characters. -/
def c2Stated (m : List Char) (max : Nat) : Prop :=
  (m.length ≤ max → truncateMessage m max = m) ∧
  (max < m.length →
    (truncateMessage m max).length ≤ max ∧
    isSfxOf dots (truncateMessage m max) = true ∧
    (let t := m.take (max - 3)
     let ls := lastSpaceIdx t
     if 7 * (max : Int) ≤ 10 * ls
     then truncateMessage m max = t.take ls.toNat ++ dots
     else truncateMessage m max = t ++ dots))

/-- A 25-character message whose last space within the first 17 characters
sits at index 14, exactly 70% of the limit 20. -/
def c2CexMsg : List Char :=
  "aaaaaaaaaaaaaa bbbbbbbbbb".data

/-- Claim C2 counterexample: at maxLength 20 (inside the configured range
[20,100]) and a boundary at exactly 70% (index 14 = 0.7 * 20), the claim
demands the word-boundary cut, but the code's strict comparison
`lastSpace > maxLength * 0.7` (14 > 14 is false) takes the hard cut. -/
theorem claim_C2_counterexample :
    20 ≤ 20 ∧ 20 ≤ 100 ∧ ¬ c2Stated c2CexMsg 20 := by
  refine ⟨le_refl 20, by norm_num, ?_⟩
  intro h
  have h2 := (h.2 (by decide)).2.2
  revert h2
  decide

/-! ### File-type pattern table (`ChangeAnalysisServiceImpl.fileTypePatterns`) -/

/-- One row of the `fileTypePatterns` table: category, implied commit type,
weight, and the path predicate of the row's regex. -/
structure FileRule where
  cat : String
  ty : CommitType
  weight : Nat
  hits : List Char → Bool

/-- The `fileTypePatterns` table from src/services/CommitMessageGenerator.ts
lines 672-702, in declaration order, each regex replaced by the equivalent
predicate on the lower-cased path. -/
def fileTypePatterns : List FileRule :=
  [ { cat := "docs", ty := .docs, weight := 10,
      hits := endsWithAny [".md", ".txt", ".rst", ".adoc"] },
    { cat := "docs", ty := .docs, weight := 15,
      hits := beginsWithAny ["readme", "changelog", "license", "contributing"] },
    { cat := "docs", ty := .docs, weight := 12,
      hits := beginsWithAny ["doc/", "docs/"] },
    { cat := "test", ty := .test, weight := 12,
      hits := endsWithAny
        [".test.js", ".test.ts", ".test.jsx", ".test.tsx", ".test.py",
         ".test.java", ".test.cs", ".test.rb", ".test.php",
         ".spec.js", ".spec.ts", ".spec.jsx", ".spec.tsx", ".spec.py",
         ".spec.java", ".spec.cs", ".spec.rb", ".spec.php"] },
    { cat := "test", ty := .test, weight := 10,
      hits := beginsWithAny ["test/", "tests/", "spec/", "specs/", "__tests__/"] },
    { cat := "test", ty := .test, weight := 8,
      hits := fun p => containsSeq ".test.".data (lowerStr p) },
    { cat := "config", ty := .chore, weight := 8,
      hits := endsWithAny [".json", ".yaml", ".yml", ".toml", ".ini", ".cfg", ".conf"] },
    { cat := "config", ty := .chore, weight := 10,
      hits := equalsAny
        ["package.json", "package-lock.json", "yarn.lock", "gemfile",
         "requirements.txt", "setup.py", "pom.xml", "build.gradle"] },
    { cat := "config", ty := .chore, weight := 8,
      hits := endsWithAny [".config", ".rc"] },
    { cat := "build", ty := .chore, weight := 8,
      hits := equalsAny ["dockerfile", "docker-compose", ".dockerignore"] },
    { cat := "ci", ty := .chore, weight := 8,
      hits := beginsWithAny [".github/"] },
    { cat := "ci", ty := .chore, weight := 6,
      hits := endsWithAny [".yml", ".yaml"] },
    { cat := "style", ty := .style, weight := 10,
      hits := endsWithAny [".css", ".scss", ".sass", ".less", ".styl"] },
    { cat := "markup", ty := .style, weight := 6,
      hits := endsWithAny [".html", ".htm"] },
    { cat := "source", ty := .feat, weight := 5,
      hits := endsWithAny
        [".js", ".ts", ".jsx", ".tsx", ".py", ".java", ".cs", ".rb",
         ".php", ".go", ".rs", ".cpp", ".c", ".h"] },
    { cat := "assets", ty := .chore, weight := 4,
      hits := endsWithAny
        [".png", ".jpg", ".jpeg", ".gif", ".svg", ".ico", ".woff",
         ".woff2", ".ttf", ".eot"] } ]

/-- `matchingPatterns.reduce((best, current) => current.weight > best.weight
? current : best)`: the first rule of maximal weight among those matching
the path; `none` when no rule matches. -/
def bestMatch (p : List Char) : Option FileRule :=
  match fileTypePatterns.filter (fun r => r.hits p) with
  | [] => none
  | h :: t => some (t.foldl (fun best cur => if cur.weight > best.weight then cur else best) h)

/-! ### Commit-type classifier (`ChangeAnalysisServiceImpl.inferCommitType`)

Scores are in tenths of a point (see the header comment): a weight `w`
enters as `10 * w`, the 1.5 boost maps `s` to `s * 3 / 2` and the 1.3 boost
maps `s` to `s * 13 / 10`, both exact on the multiples of 10 the table
produces. -/

/-- Per-file contribution of the `files.forEach` loop of `inferCommitType`
(src/services/CommitMessageGenerator.ts lines 779-809). -/
def scoreStep (acc : CommitType → Nat) (pc : List Char × Change) : CommitType → Nat :=
  match bestMatch pc.1 with
  | some r =>
    let s0 := 10 * r.weight
    let s :=
      if pc.2.additions > 0 ∧ pc.2.deletions = 0 then
        if r.ty = .feat then s0 * 3 / 2 else s0
      else if pc.2.deletions > pc.2.additions then
        if r.ty = .refactor ∨ r.ty = .fix then s0 * 13 / 10 else s0
      else s0
    fun t => if t = r.ty then acc t + s else acc t
  | none =>
    fun t => if t = .feat then acc t + 30 else acc t

/-- The score map after the per-file loop (initialized to 0 for every
commit type). -/
def baseScores (files : List (List Char)) (changes : List Change) : CommitType → Nat :=
  (files.zip changes).foldl scoreStep (fun _ => 0)

/-- `totalChanges` aggregate of `inferCommitType`. -/
def totalChangesOf (changes : List Change) : Nat :=
  changes.foldl (fun sum c => sum + c.additions + c.deletions) 0

/-- `hasOnlyDeletions`: every file has `additions === 0 && deletions > 0`. -/
def hasOnlyDeletions (changes : List Change) : Bool :=
  changes.all (fun c => c.additions = 0 ∧ c.deletions > 0)

/-- `hasLargeDeletions`: some file has `deletions > additions * 2`. -/
def hasLargeDeletions (changes : List Change) : Bool :=
  changes.any (fun c => c.deletions > c.additions * 2)

/-- `hasSignificantRefactoring`: some file has `deletions > 50 &&
additions > 10`. -/
def hasSignificantRefactoring (changes : List Change) : Bool :=
  changes.any (fun c => c.deletions > 50 ∧ c.additions > 10)

/-- Add a bonus to one commit type's score. -/
def bumpScore (f : CommitType → Nat) (t0 : CommitType) (b : Nat) : CommitType → Nat :=
  fun t => if t = t0 then f t + b else f t

/-- The score map after the post-pass global adjustments of
`inferCommitType` (lines 811-823). -/
def finalScores (files : List (List Char)) (changes : List Change) : CommitType → Nat :=
  let base := baseScores files changes
  if hasOnlyDeletions changes then bumpScore base .chore 100
  else if hasLargeDeletions changes ∧ totalChangesOf changes > 50 then bumpScore base .refactor 150
  else if hasSignificantRefactoring changes then bumpScore base .refactor 120
  else base

/-- The final `typeScores.forEach` argmax (lines 825-834): iterate in
initialization order, start from `(FEAT, 0)`, replace only on a strictly
greater score. -/
def pickBestType (f : CommitType → Nat) : CommitType :=
  (commitTypeOrder.foldl
    (fun best t => if f t > best.2 then (t, f t) else best)
    (CommitType.feat, 0)).1

/-- `inferCommitType(files, changes)` from
src/services/CommitMessageGenerator.ts lines 770-837. -/
def inferCommitType (files : List (List Char)) (changes : List Change) : CommitType :=
  pickBestType (finalScores files changes)

/-- The post-pass bonus exactly as claim C3 words it: +10 to chore when
every file is a pure deletion; else +15 to refactor when some file's
deletions exceed twice its additions and the total of all additions and
deletions exceeds 50; else +12 to refactor when some file has deletions
> 50 and additions > 10; else nothing (in tenths of a point). -/
def claimBonusC3 (changes : List Change) : CommitType → Nat :=
  fun t =>
    if ∀ c ∈ changes, c.additions = 0 ∧ 0 < c.deletions then
      if t = .chore then 100 else 0
    else if (∃ c ∈ changes, c.additions * 2 < c.deletions) ∧ 50 < totalChangesOf changes then
      if t = .refactor then 150 else 0
    else if ∃ c ∈ changes, 50 < c.deletions ∧ 10 < c.additions then
      if t = .refactor then 120 else 0
    else 0

/-! ### Claim C3: the post-pass bonus and the final argmax -/

/-- `hasOnlyDeletions` as a proposition. -/
lemma hasOnlyDeletions_iff (changes : List Change) :
    hasOnlyDeletions changes = true ↔ ∀ c ∈ changes, c.additions = 0 ∧ 0 < c.deletions := by
  simp [hasOnlyDeletions, List.all_eq_true]

/-- `hasLargeDeletions` as a proposition. -/
lemma hasLargeDeletions_iff (changes : List Change) :
    hasLargeDeletions changes = true ↔ ∃ c ∈ changes, c.additions * 2 < c.deletions := by
  simp [hasLargeDeletions, List.any_eq_true]

/-- `hasSignificantRefactoring` as a proposition. -/
lemma hasSignificantRefactoring_iff (changes : List Change) :
    hasSignificantRefactoring changes = true ↔ ∃ c ∈ changes, 50 < c.deletions ∧ 10 < c.additions := by
  simp [hasSignificantRefactoring, List.any_eq_true]

/-- Behaviour of the argmax fold of `pickBestType`: the accumulator either
records a real score or is still the initial `(feat, 0)`, its score never
decreases, and it dominates every processed type. -/
lemma pickBest_fold_spec (f : CommitType → Nat) :
    ∀ (l : List CommitType) (p : CommitType × Nat),
      (f p.1 = p.2 ∨ (p.1 = CommitType.feat ∧ p.2 = 0)) →
      ((f (l.foldl (fun best t => if f t > best.2 then (t, f t) else best) p).1 =
          (l.foldl (fun best t => if f t > best.2 then (t, f t) else best) p).2 ∨
        ((l.foldl (fun best t => if f t > best.2 then (t, f t) else best) p).1 = CommitType.feat ∧
          (l.foldl (fun best t => if f t > best.2 then (t, f t) else best) p).2 = 0)) ∧
       p.2 ≤ (l.foldl (fun best t => if f t > best.2 then (t, f t) else best) p).2 ∧
       ∀ t ∈ l, f t ≤ (l.foldl (fun best t => if f t > best.2 then (t, f t) else best) p).2) := by
  intro l
  induction l with
  | nil => intro p hp; exact ⟨hp, le_refl _, by simp⟩
  | cons a as ih =>
    intro p hp
    simp only [List.foldl_cons]
    by_cases ha : f a > p.2
    · simp only [if_pos ha]
      obtain ⟨h1, h2, h3⟩ := ih (a, f a) (Or.inl rfl)
      refine ⟨h1, le_trans (le_of_lt ha) h2, ?_⟩
      intro t ht
      rcases List.mem_cons.mp ht with h | h
      · subst h; exact h2
      · exact h3 t h
    · simp only [if_neg ha]
      obtain ⟨h1, h2, h3⟩ := ih p hp
      refine ⟨h1, h2, ?_⟩
      intro t ht
      rcases List.mem_cons.mp ht with h | h
      · subst h; exact le_trans (Nat.le_of_not_lt ha) h2
      · exact h3 t h

/-- The type returned by `pickBestType` carries a maximal score. -/
lemma pickBestType_ge (f : CommitType → Nat) (t : CommitType) :
    f t ≤ f (pickBestType f) := by
  obtain ⟨h1, _, h3⟩ :=
    pickBest_fold_spec f commitTypeOrder (CommitType.feat, 0) (Or.inr ⟨rfl, rfl⟩)
  have hmem : t ∈ commitTypeOrder := by cases t <;> decide
  have ht := h3 t hmem
  rcases h1 with h | ⟨hfeat, hzero⟩
  · rw [pickBestType, h]; exact ht
  · rw [pickBestType, hfeat]
    have : f t = 0 := Nat.le_antisymm (hzero ▸ ht) (Nat.zero_le _)
    have hf : f CommitType.feat ≤ 0 := by
      have := h3 CommitType.feat (by decide)
      omega
    omega

/-- The fold never moves off an accumulator that already dominates the
remaining scores. -/
lemma pickBest_fold_stay (f : CommitType → Nat) :
    ∀ (l : List CommitType) (p : CommitType × Nat),
      (∀ t ∈ l, f t ≤ p.2) →
      l.foldl (fun best t => if f t > best.2 then (t, f t) else best) p = p := by
  intro l
  induction l with
  | nil => intro p _; rfl
  | cons a as ih =>
    intro p hp
    simp only [List.foldl_cons]
    have ha : ¬ f a > p.2 := Nat.not_lt.mpr (hp a (List.mem_cons_self a as))
    rw [if_neg ha]
    exact ih p (fun t ht => hp t (List.mem_cons_of_mem a ht))

/-- Ties favour `feat`: whenever `feat` carries a maximal score,
`pickBestType` returns `feat`. -/
lemma pickBestType_feat (f : CommitType → Nat) (h : ∀ t, f t ≤ f CommitType.feat) :
    pickBestType f = CommitType.feat := by
  unfold pickBestType
  rw [show commitTypeOrder =
        CommitType.feat ::
          [CommitType.fix, CommitType.docs, CommitType.style,
           CommitType.refactor, CommitType.test, CommitType.chore] from rfl,
      List.foldl_cons]
  by_cases h0 : f CommitType.feat > (CommitType.feat, 0).2
  · rw [if_pos h0,
      pickBest_fold_stay f _ (CommitType.feat, f CommitType.feat) (fun t _ => h t)]
  · rw [if_neg h0]
    have hall : ∀ t, f t ≤ 0 := by
      intro t
      have h1 := h t
      simp only [] at h0
      omega
    rw [pickBest_fold_stay f _ (CommitType.feat, 0) (fun t _ => hall t)]

/-- Claim C3: on parallel file/change lists, the classifier's final score
map is the per-file score map plus exactly the one bonus the claim
describes (+10 chore on all-pure-deletions, else +15 refactor on a
dominant-deletion file with total changes > 50, else +12 refactor on a
large-rewrite file), and the returned commit type carries a maximal final
score, with ties resolved in favour of `feat`.  Scores are in tenths of a
point. -/
theorem claim_C3 (files : List (List Char)) (changes : List Change)
    (h : files.length = changes.length) :
    (∀ t, finalScores files changes t = baseScores files changes t + claimBonusC3 changes t) ∧
    (∀ t, finalScores files changes t ≤ finalScores files changes (inferCommitType files changes)) ∧
    ((∀ t, finalScores files changes t ≤ finalScores files changes CommitType.feat) →
      inferCommitType files changes = CommitType.feat) := by
  refine ⟨?_, ?_, ?_⟩
  · intro t
    unfold finalScores claimBonusC3
    by_cases h1 : ∀ c ∈ changes, c.additions = 0 ∧ 0 < c.deletions
    · rw [if_pos ((hasOnlyDeletions_iff changes).mpr h1), if_pos h1]
      unfold bumpScore
      by_cases ht : t = CommitType.chore <;> simp [ht]
    · have hb1 : hasOnlyDeletions changes ≠ true := fun hc => h1 ((hasOnlyDeletions_iff changes).mp hc)
      rw [if_neg (by simpa using hb1), if_neg h1]
      by_cases h2 : (∃ c ∈ changes, c.additions * 2 < c.deletions) ∧ 50 < totalChangesOf changes
      · rw [if_pos ⟨(hasLargeDeletions_iff changes).mpr h2.1, h2.2⟩, if_pos h2]
        unfold bumpScore
        by_cases ht : t = CommitType.refactor <;> simp [ht]
      · have hb2 : ¬ (hasLargeDeletions changes = true ∧ totalChangesOf changes > 50) := by
          intro hc
          exact h2 ⟨(hasLargeDeletions_iff changes).mp hc.1, hc.2⟩
        rw [if_neg hb2, if_neg h2]
        by_cases h3 : ∃ c ∈ changes, 50 < c.deletions ∧ 10 < c.additions
        · rw [if_pos ((hasSignificantRefactoring_iff changes).mpr h3), if_pos h3]
          unfold bumpScore
          by_cases ht : t = CommitType.refactor <;> simp [ht]
        · have hb3 : hasSignificantRefactoring changes ≠ true :=
            fun hc => h3 ((hasSignificantRefactoring_iff changes).mp hc)
          rw [if_neg (by simpa using hb3), if_neg h3]
          simp
  · intro t
    exact pickBestType_ge (finalScores files changes) t
  · intro hmax
    exact pickBestType_feat (finalScores files changes) hmax

/-- Concrete input for the C3 witness: one source file, purely deleted. -/
def c3Files : List (List Char) := ["src/app.ts".data]

/-- Concrete change counts for the C3 witness. -/
def c3Changes : List Change := [{ additions := 0, deletions := 60 }]

/-- Witness for claim C3 at a concrete input. -/
theorem claim_C3_witness :
    c3Files.length = c3Changes.length ∧
    finalScores c3Files c3Changes CommitType.chore =
      baseScores c3Files c3Changes CommitType.chore + claimBonusC3 c3Changes CommitType.chore ∧
    inferCommitType c3Files c3Changes = CommitType.chore :=
  ⟨rfl, (claim_C3 c3Files c3Changes rfl).1 CommitType.chore, by decide⟩

/-! ### Scope detector (`ChangeAnalysisServiceImpl.detectScope`) -/

/-- One row of the `scopePatterns` table: scope name, priority, and the set
of lower-case path prefixes equivalent to the row's anchored
`^(src\/)?...\//i` regex. -/
structure ScopeRule where
  scope : String
  priority : Nat
  pfxs : List String
  deriving DecidableEq, Repr

/-- The `scopePatterns` table from src/services/CommitMessageGenerator.ts
lines 704-734, in declaration order; each `^(src\/)?xs?\//i` regex is the
set of prefixes {x/, xs/, src/x/, src/xs/} on the lower-cased path. -/
def scopePatterns : List ScopeRule :=
  [ { scope := "components", priority := 10,
      pfxs := ["component/", "components/", "src/component/", "src/components/"] },
    { scope := "ui", priority := 10, pfxs := ["ui/", "src/ui/"] },
    { scope := "pages", priority := 9,
      pfxs := ["page/", "pages/", "src/page/", "src/pages/"] },
    { scope := "views", priority := 9,
      pfxs := ["view/", "views/", "src/view/", "src/views/"] },
    { scope := "api", priority := 10, pfxs := ["api/", "src/api/"] },
    { scope := "services", priority := 9,
      pfxs := ["service/", "services/", "src/service/", "src/services/"] },
    { scope := "controllers", priority := 9,
      pfxs := ["controller/", "controllers/", "src/controller/", "src/controllers/"] },
    { scope := "models", priority := 8,
      pfxs := ["model/", "models/", "src/model/", "src/models/"] },
    { scope := "routes", priority := 8,
      pfxs := ["route/", "routes/", "src/route/", "src/routes/"] },
    { scope := "core", priority := 8, pfxs := ["core/", "src/core/"] },
    { scope := "lib", priority := 7, pfxs := ["lib/", "src/lib/"] },
    { scope := "utils", priority := 7,
      pfxs := ["util/", "utils/", "src/util/", "src/utils/"] },
    { scope := "helpers", priority := 7,
      pfxs := ["helper/", "helpers/", "src/helper/", "src/helpers/"] },
    { scope := "config", priority := 8, pfxs := ["config/"] },
    { scope := "build", priority := 7, pfxs := ["build/"] },
    { scope := "scripts", priority := 6, pfxs := ["script/", "scripts/"] },
    { scope := "docs", priority := 8, pfxs := ["doc/", "docs/"] },
    { scope := "tests", priority := 8,
      pfxs := ["test/", "tests/", "spec/", "specs/", "__tests__/"] } ]

/-- Whether a scope rule's regex matches a path. -/
def scopeRuleHits (r : ScopeRule) (p : List Char) : Bool :=
  r.pfxs.any (fun q => isPfxOf q.data (lowerStr p))

/-- Whether a path matches some scope rule carrying scope name `s` (the
sense of "a path that matches a scope pattern of s" in claim C4). -/
def scopeMatchesB (s : String) (p : List Char) : Bool :=
  scopePatterns.any (fun r => r.scope == s && scopeRuleHits r p)

/-- `scopeScores.set(scope, current + priority)` on an insertion-ordered
association list, the iteration/storage semantics of a JavaScript `Map`. -/
def addScore : List (String × Nat) → String → Nat → List (String × Nat)
  | [], key, prio => [(key, prio)]
  | (k, v) :: rest, key, prio =>
    if k = key then (k, v + prio) :: rest
    else (k, v) :: addScore rest key prio

/-- The inner `matchingPatterns.forEach` of `detectScope`: every rule whose
regex matches the path contributes its priority. -/
def fileScopeStep (acc : List (String × Nat)) (p : List Char) : List (String × Nat) :=
  scopePatterns.foldl
    (fun a r => if scopeRuleHits r p then addScore a r.scope r.priority else a) acc

/-- The accumulated scope-score map over all files. -/
def scopeScoresList (files : List (List Char)) : List (String × Nat) :=
  files.foldl fileScopeStep []

/-- The final loop of `detectScope` (lines 858-869): iterate the map in
insertion order starting from `('', 0)`, replace on strictly greater score,
return `bestScope || undefined`. -/
def pickScope (l : List (String × Nat)) : Option String :=
  let best := l.foldl (fun b e => if e.2 > b.2 then e else b) ("", 0)
  if best.1 = "" then none else some best.1

/-- `detectScope(files)` from src/services/CommitMessageGenerator.ts lines
842-870. -/
def detectScope (files : List (List Char)) : Option String :=
  pickScope (scopeScoresList files)

/-! ### Claim C4: scope monotonicity -/

/-- Two prefixes of one list are comparable. -/
lemma isPfxOf_total :
    ∀ (x a b : List Char), isPfxOf a x = true → isPfxOf b x = true →
      isPfxOf a b = true ∨ isPfxOf b a = true := by
  intro x
  induction x with
  | nil =>
    intro a b ha hb
    cases a with
    | nil => exact Or.inl (by cases b <;> simp [isPfxOf])
    | cons c cs => simp [isPfxOf] at ha
  | cons c cs ih =>
    intro a b ha hb
    cases a with
    | nil => exact Or.inl (by cases b <;> simp [isPfxOf])
    | cons d ds =>
      cases b with
      | nil => exact Or.inr (by simp [isPfxOf])
      | cons e es =>
        simp only [isPfxOf, Bool.and_eq_true, beq_iff_eq] at ha hb
        rcases ih ds es ha.2 hb.2 with h | h
        · exact Or.inl (by simp [isPfxOf, ha.1, hb.1, h])
        · exact Or.inr (by simp [isPfxOf, ha.1, hb.1, h])

/-- Table fact: prefixes of rules with different scope names are pairwise
incomparable, so no path can match two different scopes' rules. -/
lemma scopeTable_cross : (scopePatterns.all (fun r1 => scopePatterns.all (fun r2 =>
    r1.scope == r2.scope ||
    r1.pfxs.all (fun q1 => r2.pfxs.all (fun q2 =>
      !(isPfxOf q1.data q2.data) && !(isPfxOf q2.data q1.data)))))) = true := by
  decide

/-- Table fact: every scope rule has positive priority. -/
lemma scopeTable_prioPos : (scopePatterns.all (fun r => 1 ≤ r.priority)) = true := by
  decide

/-- A path matches rules of at most one scope name. -/
lemma scopeRule_unique {r1 r2 : ScopeRule} {p : List Char}
    (h1 : r1 ∈ scopePatterns) (h2 : r2 ∈ scopePatterns)
    (m1 : scopeRuleHits r1 p = true) (m2 : scopeRuleHits r2 p = true) :
    r1.scope = r2.scope := by
  by_contra hne
  obtain ⟨q1, hq1, hp1⟩ := List.any_eq_true.mp m1
  obtain ⟨q2, hq2, hp2⟩ := List.any_eq_true.mp m2
  have hcross := List.all_eq_true.mp scopeTable_cross r1 h1
  have hcross2 := List.all_eq_true.mp hcross r2 h2
  rw [Bool.or_eq_true] at hcross2
  rcases hcross2 with h | h
  · exact hne (by simpa using h)
  · have hq := List.all_eq_true.mp (List.all_eq_true.mp h q1 hq1) q2 hq2
    rw [Bool.and_eq_true, Bool.not_eq_true', Bool.not_eq_true'] at hq
    rcases isPfxOf_total (lowerStr p) q1.data q2.data hp1 hp2 with hc | hc
    · rw [hq.1] at hc; exact Bool.false_ne_true hc
    · rw [hq.2] at hc; exact Bool.false_ne_true hc

/-- Keys of a score list. -/
def keysOf (l : List (String × Nat)) : List String := l.map Prod.fst

/-- Lookup in a score list. -/
def lookupV : List (String × Nat) → String → Option Nat
  | [], _ => none
  | (k, v) :: rest, s => if k = s then some v else lookupV rest s

/-- A successful lookup is a member. -/
lemma lookupV_mem : ∀ (l : List (String × Nat)) (t : String) (w : Nat),
    lookupV l t = some w → (t, w) ∈ l := by
  intro l
  induction l with
  | nil => intro t w h; simp [lookupV] at h
  | cons e rest ih =>
    intro t w h
    obtain ⟨k, v⟩ := e
    simp only [lookupV] at h
    by_cases hk : k = t
    · rw [if_pos hk] at h
      subst hk
      injection h with h
      subst h
      exact List.mem_cons_self _ _
    · rw [if_neg hk] at h
      exact List.mem_cons_of_mem _ (ih t w h)

/-- Members of a list with distinct keys are found by lookup. -/
lemma mem_lookupV : ∀ (l : List (String × Nat)) (t : String) (w : Nat),
    (keysOf l).Nodup → (t, w) ∈ l → lookupV l t = some w := by
  intro l
  induction l with
  | nil => intro t w _ h; simp at h
  | cons e rest ih =>
    intro t w hnd h
    obtain ⟨k, v⟩ := e
    simp only [keysOf, List.map_cons, List.nodup_cons] at hnd
    rcases List.mem_cons.mp h with h | h
    · injection h with h1 h2
      subst h1; subst h2
      simp [lookupV]
    · have hk : k ≠ t := by
        intro hkt
        subst hkt
        exact hnd.1 (List.mem_map_of_mem Prod.fst h)
      simp only [lookupV, if_neg hk]
      exact ih t w hnd.2 h

/-- `addScore` leaves other keys' lookups unchanged. -/
lemma addScore_lookup_other : ∀ (l : List (String × Nat)) (key t : String) (prio : Nat),
    t ≠ key → lookupV (addScore l key prio) t = lookupV l t := by
  intro l
  induction l with
  | nil =>
    intro key t prio hne
    simp [addScore, lookupV, (Ne.symm hne : key ≠ t)]
  | cons e rest ih =>
    intro key t prio hne
    obtain ⟨k, v⟩ := e
    by_cases hk : k = key
    · subst hk
      simp [addScore, lookupV, (Ne.symm hne : k ≠ t)]
    · simp only [addScore, if_neg hk, lookupV]
      by_cases hkt : k = t
      · simp [if_pos hkt]
      · simp [if_neg hkt, ih key t prio hne]

/-- `addScore` adds the priority to the bumped key's value (0 if absent). -/
lemma addScore_lookup_self : ∀ (l : List (String × Nat)) (key : String) (prio : Nat),
    lookupV (addScore l key prio) key = some ((lookupV l key).getD 0 + prio) := by
  intro l
  induction l with
  | nil => intro key prio; simp [addScore, lookupV]
  | cons e rest ih =>
    intro key prio
    obtain ⟨k, v⟩ := e
    by_cases hk : k = key
    · simp [addScore, if_pos hk, lookupV, hk]
    · simp only [addScore, if_neg hk, lookupV, if_neg hk]
      exact ih key prio

/-- `addScore` can only add the bumped key to the key set. -/
lemma addScore_keys_sub : ∀ (l : List (String × Nat)) (key t : String) (prio : Nat),
    t ∈ keysOf (addScore l key prio) → t ∈ keysOf l ∨ t = key := by
  intro l
  induction l with
  | nil =>
    intro key t prio h
    simp [addScore, keysOf] at h
    exact Or.inr h
  | cons e rest ih =>
    intro key t prio h
    obtain ⟨k, v⟩ := e
    by_cases hk : k = key
    · simp only [addScore, if_pos hk, keysOf, List.map_cons] at h ⊢
      exact Or.inl h
    · simp only [addScore, if_neg hk, keysOf, List.map_cons, List.mem_cons] at h ⊢
      rcases h with h | h
      · exact Or.inl (Or.inl h)
      · rcases ih key t prio h with h2 | h2
        · exact Or.inl (Or.inr h2)
        · exact Or.inr h2

/-- `addScore` preserves distinctness of keys. -/
lemma addScore_nodup : ∀ (l : List (String × Nat)) (key : String) (prio : Nat),
    (keysOf l).Nodup → (keysOf (addScore l key prio)).Nodup := by
  intro l
  induction l with
  | nil => intro key prio _; simp [addScore, keysOf]
  | cons e rest ih =>
    intro key prio hnd
    obtain ⟨k, v⟩ := e
    simp only [keysOf, List.map_cons, List.nodup_cons] at hnd
    by_cases hk : k = key
    · simp only [addScore, if_pos hk, keysOf, List.map_cons, List.nodup_cons]
      exact ⟨hnd.1, hnd.2⟩
    · simp only [addScore, if_neg hk, keysOf, List.map_cons, List.nodup_cons]
      refine ⟨?_, ih key prio hnd.2⟩
      intro hmem
      rcases addScore_keys_sub rest key k prio hmem with h | h
      · exact hnd.1 h
      · exact hk h

/-- A path matching some rule of scope `s` matches no rule of any other
scope. -/
lemma hits_scope_eq {s : String} {p : List Char} (hm : scopeMatchesB s p = true) :
    ∀ r ∈ scopePatterns, scopeRuleHits r p = true → r.scope = s := by
  obtain ⟨r0, hr0, h0⟩ := List.any_eq_true.mp hm
  rw [Bool.and_eq_true, beq_iff_eq] at h0
  intro r hr hhit
  exact (scopeRule_unique hr hr0 hhit h0.2).trans h0.1

/-- When every matching rule of a file carries scope `s`, processing the
file leaves every other scope's score unchanged. -/
lemma tableStep_other :
    ∀ (T : List ScopeRule) (acc : List (String × Nat)) (p : List Char) (s t : String),
      (∀ r ∈ T, scopeRuleHits r p = true → r.scope = s) → t ≠ s →
      lookupV (T.foldl (fun a r => if scopeRuleHits r p then addScore a r.scope r.priority else a) acc) t =
        lookupV acc t := by
  intro T
  induction T with
  | nil => intro acc p s t _ _; rfl
  | cons r rest ih =>
    intro acc p s t hall hne
    simp only [List.foldl_cons]
    by_cases hhit : scopeRuleHits r p = true
    · rw [if_pos hhit,
        ih (addScore acc r.scope r.priority) p s t (fun r2 h2 => hall r2 (List.mem_cons_of_mem r h2)) hne,
        addScore_lookup_other acc r.scope t r.priority
          (by rw [hall r (List.mem_cons_self r rest) hhit]; exact hne)]
    · rw [if_neg hhit]
      exact ih acc p s t (fun r2 h2 => hall r2 (List.mem_cons_of_mem r h2)) hne

/-- When every matching rule of a file carries scope `s` and priorities are
positive, processing the file keeps `s` in the map, never decreases its
score, and strictly increases it when some rule matches. -/
lemma tableStep_self :
    ∀ (T : List ScopeRule) (acc : List (String × Nat)) (p : List Char) (s : String) (w : Nat),
      (∀ r ∈ T, scopeRuleHits r p = true → r.scope = s) →
      (∀ r ∈ T, 1 ≤ r.priority) →
      lookupV acc s = some w →
      ∃ w2, lookupV (T.foldl (fun a r => if scopeRuleHits r p then addScore a r.scope r.priority else a) acc) s =
          some w2 ∧ w ≤ w2 ∧ ((∃ r ∈ T, scopeRuleHits r p = true) → w < w2) := by
  intro T
  induction T with
  | nil =>
    intro acc p s w _ _ hw
    exact ⟨w, hw, le_refl w, by simp⟩
  | cons r rest ih =>
    intro acc p s w hall hprio hw
    simp only [List.foldl_cons]
    by_cases hhit : scopeRuleHits r p = true
    · rw [if_pos hhit]
      have hscope : r.scope = s := hall r (List.mem_cons_self r rest) hhit
      have hstep : lookupV (addScore acc r.scope r.priority) s = some (w + r.priority) := by
        rw [hscope, addScore_lookup_self, hw]
        rfl
      obtain ⟨w2, hw2, hle, _⟩ :=
        ih (addScore acc r.scope r.priority) p s (w + r.priority)
          (fun r2 h2 => hall r2 (List.mem_cons_of_mem r h2))
          (fun r2 h2 => hprio r2 (List.mem_cons_of_mem r h2)) hstep
      have h1 : 1 ≤ r.priority := hprio r (List.mem_cons_self r rest)
      exact ⟨w2, hw2, by omega, fun _ => by omega⟩
    · rw [if_neg hhit]
      obtain ⟨w2, hw2, hle, hstrict⟩ :=
        ih acc p s w (fun r2 h2 => hall r2 (List.mem_cons_of_mem r h2))
          (fun r2 h2 => hprio r2 (List.mem_cons_of_mem r h2)) hw
      refine ⟨w2, hw2, hle, ?_⟩
      rintro ⟨r2, hr2, hhit2⟩
      rcases List.mem_cons.mp hr2 with h | h
      · subst h; exact absurd hhit2 hhit
      · exact hstrict ⟨r2, h, hhit2⟩

/-- Processing a file preserves distinctness of the score map's keys. -/
lemma tableStep_nodup :
    ∀ (T : List ScopeRule) (acc : List (String × Nat)) (p : List Char),
      (keysOf acc).Nodup →
      (keysOf (T.foldl (fun a r => if scopeRuleHits r p then addScore a r.scope r.priority else a) acc)).Nodup := by
  intro T
  induction T with
  | nil => intro acc p h; exact h
  | cons r rest ih =>
    intro acc p h
    simp only [List.foldl_cons]
    by_cases hhit : scopeRuleHits r p = true
    · rw [if_pos hhit]
      exact ih _ p (addScore_nodup acc r.scope r.priority h)
    · rw [if_neg hhit]
      exact ih acc p h

/-- The accumulated score map always has distinct keys. -/
lemma scopeFold_nodup :
    ∀ (files : List (List Char)) (acc : List (String × Nat)),
      (keysOf acc).Nodup → (keysOf (files.foldl fileScopeStep acc)).Nodup := by
  intro files
  induction files with
  | nil => intro acc h; exact h
  | cons p ps ih =>
    intro acc h
    simp only [List.foldl_cons]
    exact ih _ (tableStep_nodup scopePatterns acc p h)

/-- Appending paths that match only scope `s` leaves every other scope's
score unchanged. -/
lemma extras_other :
    ∀ (extra : List (List Char)) (acc : List (String × Nat)) (s t : String),
      (∀ p ∈ extra, scopeMatchesB s p = true) → t ≠ s →
      lookupV (extra.foldl fileScopeStep acc) t = lookupV acc t := by
  intro extra
  induction extra with
  | nil => intro acc s t _ _; rfl
  | cons p ps ih =>
    intro acc s t hall hne
    simp only [List.foldl_cons]
    rw [ih (fileScopeStep acc p) s t (fun q hq => hall q (List.mem_cons_of_mem p hq)) hne]
    exact tableStep_other scopePatterns acc p s t
      (hits_scope_eq (hall p (List.mem_cons_self p ps))) hne

/-- Appending paths that match scope `s` keeps `s` in the map and strictly
increases its score when at least one path is appended. -/
lemma extras_self :
    ∀ (extra : List (List Char)) (acc : List (String × Nat)) (s : String) (v : Nat),
      (∀ p ∈ extra, scopeMatchesB s p = true) →
      lookupV acc s = some v →
      ∃ v2, lookupV (extra.foldl fileScopeStep acc) s = some v2 ∧ v ≤ v2 ∧
        (extra ≠ [] → v < v2) := by
  intro extra
  induction extra with
  | nil =>
    intro acc s v _ hv
    exact ⟨v, hv, le_refl v, by simp⟩
  | cons p ps ih =>
    intro acc s v hall hv
    simp only [List.foldl_cons]
    have hm : scopeMatchesB s p = true := hall p (List.mem_cons_self p ps)
    have hprio : ∀ r ∈ scopePatterns, 1 ≤ r.priority := by
      intro r hr
      simpa using List.all_eq_true.mp scopeTable_prioPos r hr
    obtain ⟨rw0, hrw0, hhit0⟩ := List.any_eq_true.mp hm
    rw [Bool.and_eq_true] at hhit0
    obtain ⟨w2, hw2, hle2, hstrict2⟩ :=
      tableStep_self scopePatterns acc p s v (hits_scope_eq hm) hprio hv
    have hvw2 : v < w2 := hstrict2 ⟨rw0, hrw0, hhit0.2⟩
    obtain ⟨v2, hv2, hle3, _⟩ :=
      ih (fileScopeStep acc p) s w2 (fun q hq => hall q (List.mem_cons_of_mem p hq)) hw2
    exact ⟨v2, hv2, by omega, fun _ => by omega⟩

/-- Behaviour of the `detectScope` argmax fold: the accumulator is the
initial pair or an entry of the list, never decreases, and dominates every
entry. -/
lemma pickScope_fold_spec :
    ∀ (l : List (String × Nat)) (b : String × Nat),
      (l.foldl (fun b e => if e.2 > b.2 then e else b) b = b ∨
        l.foldl (fun b e => if e.2 > b.2 then e else b) b ∈ l) ∧
      b.2 ≤ (l.foldl (fun b e => if e.2 > b.2 then e else b) b).2 ∧
      ∀ e ∈ l, e.2 ≤ (l.foldl (fun b e => if e.2 > b.2 then e else b) b).2 := by
  intro l
  induction l with
  | nil => intro b; exact ⟨Or.inl rfl, le_refl _, by simp⟩
  | cons a as ih =>
    intro b
    simp only [List.foldl_cons]
    by_cases ha : a.2 > b.2
    · rw [if_pos ha]
      obtain ⟨h1, h2, h3⟩ := ih a
      refine ⟨?_, le_trans (le_of_lt ha) h2, ?_⟩
      · rcases h1 with h | h
        · exact Or.inr (by rw [h]; exact List.mem_cons_self a as)
        · exact Or.inr (List.mem_cons_of_mem a h)
      · intro e he
        rcases List.mem_cons.mp he with h | h
        · subst h; exact h2
        · exact h3 e h
    · rw [if_neg ha]
      obtain ⟨h1, h2, h3⟩ := ih b
      refine ⟨?_, h2, ?_⟩
      · rcases h1 with h | h
        · exact Or.inl h
        · exact Or.inr (List.mem_cons_of_mem a h)
      · intro e he
        rcases List.mem_cons.mp he with h | h
        · subst h; exact le_trans (Nat.le_of_not_lt ha) h2
        · exact h3 e h

/-- The winner of `pickScope` is a nonempty scope name holding a maximal
score. -/
lemma pickScope_max {l : List (String × Nat)} {s : String}
    (h : pickScope l = some s) :
    s ≠ "" ∧ ∃ v, (s, v) ∈ l ∧ ∀ e ∈ l, e.2 ≤ v := by
  unfold pickScope at h
  by_cases hb : (l.foldl (fun b e => if e.2 > b.2 then e else b) ("", 0)).1 = ""
  · rw [if_pos hb] at h; cases h
  · rw [if_neg hb] at h
    injection h with h
    obtain ⟨h1, _, h3⟩ := pickScope_fold_spec l ("", 0)
    rcases h1 with heq | hmem
    · rw [heq] at hb; exact absurd rfl hb
    · subst h
      refine ⟨hb, (l.foldl (fun b e => if e.2 > b.2 then e else b) ("", 0)).2, ?_, h3⟩
      exact hmem

/-- The fold never leaves an accumulator that dominates the rest. -/
lemma pickScope_fold_stay :
    ∀ (l : List (String × Nat)) (b : String × Nat),
      (∀ e ∈ l, e.2 ≤ b.2) →
      l.foldl (fun b e => if e.2 > b.2 then e else b) b = b := by
  intro l
  induction l with
  | nil => intro b _; rfl
  | cons a as ih =>
    intro b hb
    simp only [List.foldl_cons]
    rw [if_neg (Nat.not_lt.mpr (hb a (List.mem_cons_self a as)))]
    exact ih b (fun e he => hb e (List.mem_cons_of_mem a he))

/-- An entry holding a strictly maximal positive score wins `pickScope`. -/
lemma pickScope_strict :
    ∀ (l : List (String × Nat)) (b : String × Nat) (s : String) (v : Nat),
      (s, v) ∈ l → (keysOf l).Nodup → (∀ e ∈ l, e.1 ≠ s → e.2 < v) → b.2 < v →
      l.foldl (fun b e => if e.2 > b.2 then e else b) b = (s, v) := by
  intro l
  induction l with
  | nil => intro b s v h; simp at h
  | cons a as ih =>
    intro b s v hmem hnd hlt hb
    simp only [keysOf, List.map_cons, List.nodup_cons] at hnd
    simp only [List.foldl_cons]
    rcases List.mem_cons.mp hmem with h | h
    · subst h
      rw [if_pos hb]
      apply pickScope_fold_stay
      intro e he
      by_cases hes : e.1 = s
      · exfalso
        have hm2 : e.1 ∈ as.map Prod.fst := List.mem_map_of_mem Prod.fst he
        rw [hes] at hm2
        exact hnd.1 hm2
      · exact le_of_lt (hlt e (List.mem_cons_of_mem _ he) hes)
    · have has : a.1 ≠ s := by
        intro heq
        apply hnd.1
        rw [heq]
        exact List.mem_map_of_mem Prod.fst h
      have halt : a.2 < v := hlt a (List.mem_cons_self a as) has
      by_cases ha : a.2 > b.2
      · rw [if_pos ha]
        exact ih a s v h hnd.2 (fun e he hes => hlt e (List.mem_cons_of_mem a he) hes) halt
      · rw [if_neg ha]
        exact ih b s v h hnd.2 (fun e he hes => hlt e (List.mem_cons_of_mem a he) hes) hb

/-- Claim C4: scope detection is monotone for the incumbent.  If
`detectScope` returns scope `s` on a file list, appending further paths
each matching a scope pattern of `s` still returns `s`. -/
theorem claim_C4 (files extra : List (List Char)) (s : String)
    (h : detectScope files = some s)
    (hx : extra.all (fun p => scopeMatchesB s p) = true) :
    detectScope (files ++ extra) = some s := by
  have hx' : ∀ p ∈ extra, scopeMatchesB s p = true := by
    intro p hp
    exact List.all_eq_true.mp hx p hp
  unfold detectScope scopeScoresList at h ⊢
  rw [List.foldl_append]
  obtain ⟨hs0, v, hmemv, hmax⟩ := pickScope_max h
  have hnd : (keysOf (files.foldl fileScopeStep [])).Nodup :=
    scopeFold_nodup files [] (by simp [keysOf])
  have hlook : lookupV (files.foldl fileScopeStep []) s = some v :=
    mem_lookupV _ s v hnd hmemv
  cases extra with
  | nil => simpa using h
  | cons p0 ps0 =>
    obtain ⟨v2, hv2, _, hstrict⟩ :=
      extras_self (p0 :: ps0) (files.foldl fileScopeStep []) s v hx' hlook
    have hvlt : v < v2 := hstrict (List.cons_ne_nil p0 ps0)
    have hnd2 : (keysOf ((p0 :: ps0).foldl fileScopeStep (files.foldl fileScopeStep []))).Nodup :=
      scopeFold_nodup (p0 :: ps0) _ hnd
    have hmem2 : (s, v2) ∈ (p0 :: ps0).foldl fileScopeStep (files.foldl fileScopeStep []) :=
      lookupV_mem _ s v2 hv2
    have hother : ∀ e ∈ (p0 :: ps0).foldl fileScopeStep (files.foldl fileScopeStep []),
        e.1 ≠ s → e.2 < v2 := by
      intro e he hes
      have hl2 : lookupV ((p0 :: ps0).foldl fileScopeStep (files.foldl fileScopeStep [])) e.1 =
          some e.2 := mem_lookupV _ e.1 e.2 hnd2 (by simpa using he)
      rw [extras_other (p0 :: ps0) _ s e.1 hx' hes] at hl2
      have hmem0 : (e.1, e.2) ∈ files.foldl fileScopeStep [] := lookupV_mem _ e.1 e.2 hl2
      have := hmax (e.1, e.2) hmem0
      simp only [] at this
      omega
    unfold pickScope
    rw [pickScope_strict _ ("", 0) s v2 hmem2 hnd2 hother (by omega)]
    simp [hs0]

/-- Concrete file lists for the C4 witness. -/
def c4Files : List (List Char) := ["src/components/Button.tsx".data, "src/api/a.ts".data]

/-- Concrete appended paths for the C4 witness. -/
def c4Extra : List (List Char) := ["components/Input.tsx".data]

/-- Witness for claim C4 at a concrete input. -/
theorem claim_C4_witness :
    detectScope c4Files = some "components" ∧
    c4Extra.all (fun p => scopeMatchesB "components" p) = true ∧
    detectScope (c4Files ++ c4Extra) = some "components" :=
  ⟨by decide, by decide, claim_C4 c4Files c4Extra "components" (by decide) (by decide)⟩

/-! ### Claim C2: truncation behaviour over the configured range [20,100] -/

/-- The least integer strictly above the binary64 threshold
`maxLength * 0.7` for `maxLength ∈ [20,100]`: `⌊7·max/10⌋ + 1` everywhere
except `maxLength = 90`, where the product rounds to just below 63 and a
boundary at exactly 63 already clears it. -/
def c2Bound (max : Nat) : Int := if max = 90 then 63 else ((7 * max) / 10 : Nat) + 1

/-- Verified bracketing of the binary64 threshold for every
`maxLength ∈ [20,100]`: `c2Bound - 1 ≤ threshold < c2Bound` (both sides
scaled by `2^52`). -/
lemma thrTable : ∀ max ∈ List.range 101, 20 ≤ max →
    ((c2Bound max - 1) * 2 ^ 52 ≤ ((jsMul07 max).1 : Int) * 2 ^ (jsMul07 max).2 ∧
      ((jsMul07 max).1 : Int) * 2 ^ (jsMul07 max).2 < c2Bound max * 2 ^ 52) := by
  decide

/-- Over the configured range, the source's float comparison
`lastSpace > maxLength * 0.7` holds exactly for integers at least
`c2Bound maxLength`. -/
lemma gtThr07_iff {max : Nat} (h1 : 20 ≤ max) (h2 : max ≤ 100) (s : Int) :
    gtThr07 s max = true ↔ c2Bound max ≤ s := by
  obtain ⟨hlo, hhi⟩ := thrTable max (List.mem_range.mpr (by omega)) h1
  unfold gtThr07
  simp only [decide_eq_true_eq]
  constructor
  · intro h
    have h3 : (c2Bound max - 1) * 2 ^ 52 < s * 2 ^ 52 := lt_of_le_of_lt hlo h
    have h4 : c2Bound max - 1 < s :=
      lt_of_mul_lt_mul_right h3 (by positivity)
    omega
  · intro h
    calc ((jsMul07 max).1 : Int) * 2 ^ (jsMul07 max).2
        < c2Bound max * 2 ^ 52 := hhi
      _ ≤ s * 2 ^ 52 := by
          exact mul_le_mul_of_nonneg_right h (by positivity)

/-- `c2Bound` in claim language: an integer clears it exactly when it sits
strictly past 70% of `maxLength`, or equals 63 at `maxLength = 90`. -/
lemma c2Bound_iff {max : Nat} (h1 : 20 ≤ max) (s : Int) :
    c2Bound max ≤ s ↔ (7 * (max : Int) < 10 * s ∨ (max = 90 ∧ s = 63)) := by
  by_cases h90 : max = 90
  · subst h90
    have hb : c2Bound 90 = 63 := rfl
    rw [hb]
    constructor
    · intro h
      rcases lt_or_eq_of_le h with h2 | h2
      · left
        push_cast
        omega
      · exact Or.inr ⟨rfl, h2.symm⟩
    · rintro (h | ⟨_, h2⟩)
      · push_cast at h
        omega
      · omega
  · have hb : c2Bound max = ((7 * max) / 10 : Nat) + 1 := by
      unfold c2Bound
      rw [if_neg h90]
    rw [hb]
    have hdm := Nat.div_add_mod (7 * max) 10
    have hml : (7 * max) % 10 < 10 := Nat.mod_lt _ (by omega)
    constructor
    · intro h
      left
      omega
    · rintro (h | ⟨h90x, _⟩)
      · omega
      · exact absurd h90x h90

/-- The last-space index is below the list's length. -/
lemma lastSpaceIdx_lt : ∀ l : List Char, lastSpaceIdx l < (l.length : Int) := by
  intro l
  induction l with
  | nil => simp [lastSpaceIdx]
  | cons c cs ih =>
    simp only [lastSpaceIdx, List.length_cons]
    by_cases hr : lastSpaceIdx cs ≥ 0
    · rw [if_pos hr]; push_cast; omega
    · rw [if_neg hr]
      by_cases hc : c == ' '
      · rw [if_pos hc]; push_cast; omega
      · rw [if_neg hc]; push_cast; omega

/-- A list is a prefix of itself extended. -/
lemma isPfxOf_append_self : ∀ (a b : List Char), isPfxOf a (a ++ b) = true := by
  intro a b
  induction a with
  | nil => rfl
  | cons c cs ih => simp [isPfxOf, ih]

/-- Anything with `"..."` appended ends in `"..."`. -/
lemma isSfxOf_dots (x : List Char) : isSfxOf dots (x ++ dots) = true := by
  unfold isSfxOf
  rw [List.reverse_append]
  exact isPfxOf_append_self dots.reverse x.reverse

/-- Claim C2 (amended): over the configured range `maxLength ∈ [20,100]`, a
message within the limit is returned unchanged; one over the limit is
truncated to at most `maxLength` characters ending in `"..."`, cut at the
last whitespace boundary of the first `maxLength - 3` characters when that
boundary lies strictly past 70% of `maxLength` — except `maxLength = 90`,
where the binary64 product `90 * 0.7` is slightly below 63, so a boundary
at exactly 63 (70%) also takes the word cut — and hard-cut after
`maxLength - 3` characters otherwise; no error is ever raised (the
function is total). -/
theorem claim_C2_amended (m : List Char) (max : Nat) (h1 : 20 ≤ max) (h2 : max ≤ 100) :
    (m.length ≤ max → truncateMessage m max = m) ∧
    (max < m.length →
      (truncateMessage m max).length ≤ max ∧
      isSfxOf dots (truncateMessage m max) = true ∧
      (if 7 * (max : Int) < 10 * lastSpaceIdx (m.take (max - 3)) ∨
          (max = 90 ∧ lastSpaceIdx (m.take (max - 3)) = 63)
       then truncateMessage m max =
          (m.take (max - 3)).take (lastSpaceIdx (m.take (max - 3))).toNat ++ dots
       else truncateMessage m max = m.take (max - 3) ++ dots)) := by
  constructor
  · intro hle
    unfold truncateMessage
    rw [if_pos hle]
  · intro hgt
    have hnle : ¬ m.length ≤ max := by omega
    have htlen : (m.take (max - 3)).length = max - 3 := by
      rw [List.length_take]
      omega
    have hlsl := lastSpaceIdx_lt (m.take (max - 3))
    rw [htlen] at hlsl
    by_cases hc : c2Bound max ≤ lastSpaceIdx (m.take (max - 3))
    · have hgt07 : gtThr07 (lastSpaceIdx (m.take (max - 3))) max = true :=
        (gtThr07_iff h1 h2 _).mpr hc
      have heq : truncateMessage m max =
          (m.take (max - 3)).take (lastSpaceIdx (m.take (max - 3))).toNat ++ dots := by
        unfold truncateMessage
        rw [if_neg hnle, if_pos hgt07]
      have hpos : (0 : Int) ≤ lastSpaceIdx (m.take (max - 3)) := by
        have : (15 : Int) ≤ c2Bound max := by
          unfold c2Bound
          by_cases h90 : max = 90
          · rw [if_pos h90]; omega
          · rw [if_neg h90]
            have : 14 ≤ 7 * max / 10 := by
              have : 140 ≤ 7 * max := by omega
              omega
            omega
        omega
      refine ⟨?_, ?_, ?_⟩
      · rw [heq]
        simp only [List.length_append, List.length_take, htlen]
        have : (lastSpaceIdx (m.take (max - 3))).toNat < max - 3 := by omega
        simp only [dots, List.length_cons, List.length_nil]
        omega
      · rw [heq]; exact isSfxOf_dots _
      · rw [if_pos ((c2Bound_iff h1 _).mp hc)]
        exact heq
    · have hgt07 : ¬ gtThr07 (lastSpaceIdx (m.take (max - 3))) max = true := by
        rw [gtThr07_iff h1 h2]
        exact hc
      have heq : truncateMessage m max = m.take (max - 3) ++ dots := by
        unfold truncateMessage
        rw [if_neg hnle, if_neg hgt07]
      refine ⟨?_, ?_, ?_⟩
      · rw [heq]
        simp only [List.length_append, htlen, dots, List.length_cons, List.length_nil]
        omega
      · rw [heq]; exact isSfxOf_dots _
      · rw [if_neg (fun hcc => hc ((c2Bound_iff h1 _).mpr hcc))]
        exact heq

/-- A 52-character message used for the C2 witness. -/
def c2WitMsg : List Char :=
  "feat(services): implement a very long commit message".data

/-- Witness for the amended claim C2 at a concrete input. -/
theorem claim_C2_amended_witness :
    (20 ≤ 30 ∧ 30 ≤ 100) ∧ (truncateMessage c2WitMsg 30).length ≤ 30 :=
  ⟨⟨by norm_num, by norm_num⟩,
    ((claim_C2_amended c2WitMsg 30 (by norm_num) (by norm_num)).2 (by decide)).1⟩

/-! ### Description synthesis and change analysis
(`ChangeAnalysisServiceImpl.generateDescription`, `analyzeChanges`) -/

/-- `Object.keys(this.categorizeFilesByType(filePaths))` (lines 875-900 and
754): the file-type categories in first-insertion order ("other" for
unmatched paths). -/
def categoryKeys (files : List (List Char)) : List String :=
  files.foldl
    (fun acc p =>
      let cat := match bestMatch p with
        | some r => r.cat
        | none => "other"
      if acc.contains cat then acc else acc ++ [cat]) []

/-- `getActionWord(commitType, diff)` from
src/services/CommitMessageGenerator.ts lines 960-985. -/
def getActionWord (t : CommitType) (diff : GitDiff) : List Char :=
  match t with
  | .feat => if diff.additions > 0 ∧ ¬ diff.deletions > 0 then "add".data else "implement".data
  | .fix => "fix".data
  | .docs => if diff.additions > 0 ∧ ¬ diff.deletions > 0 then "add".data else "update".data
  | .style => "style".data
  | .refactor => "refactor".data
  | .test => if diff.additions > 0 ∧ ¬ diff.deletions > 0 then "add".data else "update".data
  | .chore =>
    if diff.deletions > 0 ∧ ¬ diff.additions > 0 then "remove".data
    else if diff.additions > 0 ∧ ¬ diff.deletions > 0 then "add".data
    else "update".data

/-- `generateDescription(diff, commitType, fileTypes)` from
src/services/CommitMessageGenerator.ts lines 925-955. -/
def generateDescription (diff : GitDiff) (commitType : CommitType) (fileTypes : List String) : List Char :=
  match diff.files with
  | [file] =>
    match file.status with
    | .added => "add ".data ++ jsBasename file.path
    | .deleted => "remove ".data ++ jsBasename file.path
    | .renamed => "rename ".data ++ jsBasename file.path
    | .modified => "update ".data ++ jsBasename file.path
  | _ =>
    let primaryFileType := match fileTypes with
      | [] => "files"
      | h :: _ => h
    let actionWord := getActionWord commitType diff
    if fileTypes.length = 1 then actionWord ++ " ".data ++ primaryFileType.data
    else if fileTypes.length > 1 then
      actionWord ++ " ".data ++ primaryFileType.data ++ " and other files".data
    else actionWord ++ " multiple files".data

/-- `analyzeChanges(diff)` from src/services/CommitMessageGenerator.ts
lines 739-765. -/
def analyzeChanges (diff : GitDiff) : ChangeAnalysis :=
  if diff.files.length = 0 then
    { commitType := .chore, scope := none,
      description := "No changes detected".data,
      impactLevel := .minor, fileTypes := [] }
  else
    let filePaths := diff.files.map ChangedFile.path
    let changes := diff.files.map (fun f => Change.mk f.additions f.deletions)
    { commitType := inferCommitType filePaths changes,
      scope := detectScope filePaths,
      description := generateDescription diff (inferCommitType filePaths changes) (categoryKeys filePaths),
      impactLevel := assessImpactLevel diff.additions diff.deletions diff.files.length,
      fileTypes := categoryKeys filePaths }

/-- Claim C10: on a ChangeSet with an empty file list (whatever its
aggregate counts and summary say), `analyzeChanges` returns exactly
commit type chore, description "No changes detected", minor impact, no
scope and an empty file-type list, and is total (no exception). -/
theorem claim_C10 (a d : Nat) (s : List Char) :
    analyzeChanges { files := [], additions := a, deletions := d, summary := s } =
      { commitType := .chore, scope := none,
        description := "No changes detected".data,
        impactLevel := .minor, fileTypes := [] } := rfl
/-! ### The non-AI template path (claims C6 and C9)

`CommitMessageGeneratorImpl.generateWithTemplate` delegates to the
`FallbackCommitGenerator` class, which is in the snapshot at
src/services/GitService.ts lines 378-819 (appended after the interface
declarations).  It carries its own classifier, scope detector, description
synthesizer and formatter, all embedded below under the
`FallbackCommitGenerator` namespace.  Its `truncateSubject` (lines 797-811)
is an identical copy of `CommitMessageGeneratorImpl.truncateMessage`, so
the embedding reuses `truncateMessage`. -/

/-- The string value of each impact band. -/
def Impact.str : Impact → String
  | .minor => "minor" | .moderate => "moderate" | .major => "major"

/-- The string value of each file status. -/
def FileStatus.str : FileStatus → List Char
  | .added => "added".data
  | .modified => "modified".data
  | .deleted => "deleted".data
  | .renamed => "renamed".data

/-- Join character lists with a separator (`Array.prototype.join`). -/
def joinSep (sep : List Char) : List (List Char) → List Char
  | [] => []
  | [x] => x
  | x :: xs => x ++ sep ++ joinSep sep xs

/-- `generateBody(analysis)` from src/services/CommitMessageGenerator.ts
lines 374-392 (the body generation of the AI-path formatter
`formatCommitMessage`). -/
def generateBody (prefs : UserPreferences) (analysis : ChangeAnalysis) : Option (List Char) :=
  if prefs.includeBody = false then none
  else
    let bodyParts : List (List Char) :=
      (if analysis.impactLevel ≠ Impact.minor then
        ["Impact: ".data ++ analysis.impactLevel.str.data] else []) ++
      (if analysis.fileTypes.length > 1 then
        ["Affects: ".data ++ joinSep ", ".data (analysis.fileTypes.map String.data) ++ " files".data]
       else [])
    if bodyParts.length > 0 then some (joinSep ['\n'] bodyParts) else none

/-- Decimal digits of a natural (fuel-driven, kernel-reducible); the
template-literal interpolation `${n}`. -/
def natDigitsAux : Nat → Nat → List Char
  | 0, _ => []
  | fuel + 1, n =>
    if n < 10 then [Char.ofNat (48 + n)]
    else natDigitsAux fuel (n / 10) ++ [Char.ofNat (48 + n % 10)]

/-- A natural number rendered in decimal. -/
def natToChars (n : Nat) : List Char := natDigitsAux (n + 1) n

/-- `String.prototype.replace` with a plain-string pattern: replace the
first occurrence only (inserting at the front for an empty pattern). -/
def replaceFirst (pat repl : List Char) : List Char → List Char
  | [] => if isPfxOf pat [] then repl else []
  | c :: cs =>
    if isPfxOf pat (c :: cs) then repl ++ (c :: cs).drop pat.length
    else c :: replaceFirst pat repl cs

/-- ASCII upper-casing of one character. -/
def asciiUpper (c : Char) : Char :=
  if 'a' ≤ c ∧ c ≤ 'z' then Char.ofNat (c.toNat - 32) else c

/-- `s.charAt(0).toUpperCase() + s.slice(1)`. -/
def jsCapitalize : List Char → List Char
  | [] => []
  | c :: cs => asciiUpper c :: cs

namespace FallbackCommitGenerator

/-- `hasTestFiles` (GitService.ts lines 455-466); all checks are
case-sensitive. -/
def hasTestFiles (files : List ChangedFile) : Bool :=
  files.any (fun f =>
    containsSeq "test".data f.path ||
    containsSeq "spec".data f.path ||
    containsSeq "__tests__".data f.path ||
    isSfxOf ".test.ts".data f.path ||
    isSfxOf ".test.js".data f.path ||
    isSfxOf ".spec.ts".data f.path ||
    isSfxOf ".spec.js".data f.path)

/-- `hasDocumentationFiles` (lines 471-479). -/
def hasDocumentationFiles (files : List ChangedFile) : Bool :=
  files.any (fun f =>
    isSfxOf ".md".data f.path ||
    containsSeq "docs/".data f.path ||
    containsSeq "documentation/".data f.path ||
    containsSeq "README".data f.path)

/-- `hasConfigFiles` (lines 484-496). -/
def hasConfigFiles (files : List ChangedFile) : Bool :=
  files.any (fun f =>
    containsSeq "package.json".data f.path ||
    containsSeq "tsconfig.json".data f.path ||
    containsSeq "webpack.config".data f.path ||
    containsSeq ".config.".data f.path ||
    containsSeq "settings.json".data f.path ||
    isPfxOf ".".data f.path ||
    containsSeq "Dockerfile".data f.path ||
    containsSeq "docker-compose".data f.path)

/-- `hasNewFiles` (lines 501-503). -/
def hasNewFiles (files : List ChangedFile) : Bool :=
  files.any (fun f => f.status = FileStatus.added)

/-- `hasBugFixPatterns` (lines 508-531): keyword scan over the lower-cased
concatenation of all per-file diff texts. -/
def hasBugFixPatterns (diff : GitDiff) : Bool :=
  let content := lowerStr (joinSep ['\n'] (diff.files.map ChangedFile.diff))
  ["fix", "bug", "error", "issue", "problem", "crash", "exception", "null",
   "undefined", "validation", "check", "guard", "safety"].any
    (fun k => containsSeq k.data content)

/-- `hasStyleChanges` (lines 536-546). -/
def hasStyleChanges (files : List ChangedFile) : Bool :=
  files.any (fun f =>
    isSfxOf ".css".data f.path ||
    isSfxOf ".scss".data f.path ||
    isSfxOf ".sass".data f.path ||
    isSfxOf ".less".data f.path ||
    containsSeq "styles/".data f.path ||
    containsSeq "styling/".data f.path)

/-- `hasRefactorPatterns` (lines 551-570). -/
def hasRefactorPatterns (diff : GitDiff) : Bool :=
  let content := lowerStr (joinSep ['\n'] (diff.files.map ChangedFile.diff))
  ["refactor", "restructure", "reorganize", "cleanup", "simplify",
   "extract", "rename", "move", "split"].any
    (fun k => containsSeq k.data content)

/-- `cleanScopeName` (lines 609-616):
`scope.replace(/^(src|lib|app|components?)$/i, "").replace(/s$/, "")
.toLowerCase().trim()` — the first replace is a case-insensitive
whole-string match, the plural strip removes only a lower-case trailing
`s`. -/
def cleanScopeName (scope : List Char) : List Char :=
  let s1 := if equalsAny ["src", "lib", "app", "component", "components"] scope then []
            else scope
  let s2 := if isSfxOf ['s'] s1 then s1.dropLast else s1
  jsTrim (lowerStr s2)

/-- The first directory name of maximal occurrence count
(`Object.entries(dirCounts).sort(([,a],[,b]) => b-a)[0][0]`: a stable
descending sort keeps first-insertion order among ties). -/
def mostCommonDir (l : List (List Char)) : List Char :=
  let keys := l.foldl (fun acc d => if acc.contains d then acc else acc ++ [d]) []
  (keys.foldl
    (fun best k =>
      if (l.filter (fun x => x == k)).length > (l.filter (fun x => x == best)).length then k
      else best)
    (keys.headD []))

/-- `determineScope` (lines 575-604): first meaningful directory of each
path (skipping a leading `src` when a deeper directory exists), root-level
files and empty segments dropped by `filter(Boolean)`, most common
directory cleaned by `cleanScopeName`. -/
def determineScope (files : List ChangedFile) : Option (List Char) :=
  let directories := files.filterMap (fun f =>
    let parts := splitOnChar '/' f.path
    if parts.length > 1 then
      let d := if parts.getD 0 [] == "src".data && parts.length > 2 then parts.getD 1 []
               else parts.getD 0 []
      if d.isEmpty then none else some d
    else none)
  if directories.isEmpty then none
  else some (cleanScopeName (mostCommonDir directories))

/-- `analyzeChanges` (lines 420-450): the priority chain for the commit
type, then scope detection.  Returns `(type, scope)`. -/
def analyzeChanges (diff : GitDiff) : String × Option (List Char) :=
  let files := diff.files
  let ty :=
    if hasTestFiles files then "test"
    else if hasDocumentationFiles files then "docs"
    else if hasConfigFiles files then "chore"
    else if hasNewFiles files then "feat"
    else if hasBugFixPatterns diff then "fix"
    else if hasStyleChanges files then "style"
    else if hasRefactorPatterns diff then "refactor"
    else if files.any (fun f => f.status = FileStatus.modified) then "feat"
    else "chore"
  (ty, determineScope files)

/-- The case-sensitive extension alternatives of the base-name regex
`/\.(ts|js|tsx|jsx|py|java|cpp|c|cs|php|rb|go|rs)$/` (line 643); at most
one alternative can match a given name since all are anchored at the
end. -/
def extAlternatives : List String :=
  ["ts", "js", "tsx", "jsx", "py", "java", "cpp", "c", "cs", "php", "rb", "go", "rs"]

/-- `fileName.replace(/\.(ts|...|rs)$/, "")`. -/
def stripExtension (name : List Char) : List Char :=
  match extAlternatives.find? (fun e => isSfxOf ("." ++ e).data name) with
  | some e => name.take (name.length - (e.length + 1))
  | none => name

/-- `generateSingleFileDescription` (lines 637-674). -/
def generateSingleFileDescription (file : ChangedFile) (ty : String) : List Char :=
  let baseName := stripExtension (jsBasename file.path)
  match file.status with
  | .added => "add ".data ++ baseName
  | .deleted => "remove ".data ++ baseName
  | .renamed => "rename ".data ++ baseName
  | .modified =>
    if ty = "fix" then "fix ".data ++ baseName ++ " issues".data
    else if ty = "feat" then "update ".data ++ baseName
    else if ty = "refactor" then "refactor ".data ++ baseName
    else if ty = "style" then "style ".data ++ baseName
    else if ty = "test" then "add tests for ".data ++ baseName
    else if ty = "docs" then "update ".data ++ baseName ++ " documentation".data
    else "update ".data ++ baseName

/-- `generateMultiFileDescription` (lines 679-719). -/
def generateMultiFileDescription (files : List ChangedFile) (ty : String) : List Char :=
  let addedCount := (files.filter (fun f => f.status = FileStatus.added)).length
  let modifiedCount := (files.filter (fun f => f.status = FileStatus.modified)).length
  let deletedCount := (files.filter (fun f => f.status = FileStatus.deleted)).length
  if addedCount > modifiedCount ∧ addedCount > deletedCount then
    if ty = "feat" then "add new features".data
    else if ty = "test" then "add test coverage".data
    else if ty = "docs" then "add documentation".data
    else "add ".data ++ natToChars addedCount ++ " new files".data
  else if deletedCount > 0 ∧ deletedCount ≥ modifiedCount then
    "remove unused files".data
  else
    if ty = "fix" then "fix multiple issues".data
    else if ty = "refactor" then "refactor codebase".data
    else if ty = "style" then "update styling".data
    else if ty = "test" then "improve test coverage".data
    else if ty = "docs" then "update documentation".data
    else if ty = "chore" then "update configuration".data
    else "update multiple components".data

/-- `generateDescription` (lines 621-632). -/
def generateDescription (diff : GitDiff) (ty : String) : List Char :=
  match diff.files with
  | [file] => generateSingleFileDescription file ty
  | _ => generateMultiFileDescription diff.files ty

/-- `applyCustomTemplate` (lines 750-765): five first-occurrence
replacements in source order. -/
def applyCustomTemplate (template : List Char) (ty : String)
    (scope : Option (List Char)) (description : List Char) : List Char :=
  replaceFirst "{Description}".data (jsCapitalize description)
    (replaceFirst "{Type}".data (jsCapitalize ty.data)
      (replaceFirst "{description}".data description
        (replaceFirst "{scope}".data (scope.getD [])
          (replaceFirst "{type}".data ty.data template))))

/-- `formatSubject` (lines 724-745): custom template if provided;
conventional `type(scope): description` with the scope omitted when it is
undefined or empty (falsy) or `includeScope` is off; otherwise the bare
description. -/
def formatSubject (ty : String) (scope : Option (List Char)) (description : List Char)
    (prefs : UserPreferences) (opts : GenerationOptions) : List Char :=
  match opts.customTemplate with
  | some tmpl => applyCustomTemplate tmpl ty scope description
  | none =>
    match prefs.commitStyle with
    | .conventional =>
      let scopeStr :=
        match scope with
        | some sc =>
          if ¬ sc.isEmpty ∧ opts.includeScope then "(".data ++ sc ++ ")".data else []
        | none => []
      ty.data ++ scopeStr ++ ": ".data ++ description
    | .custom => description

/-- `generateBody` (lines 770-792): file summary plus change statistics,
joined by blank lines. -/
def generateBody (diff : GitDiff) : Option (List Char) :=
  let bodyParts : List (List Char) :=
    (if diff.files.length > 3 then
      ["Modified ".data ++ natToChars diff.files.length ++ " files".data]
     else
      ["Files changed:".data ++ ['\n'] ++
        joinSep ['\n'] (diff.files.map (fun f =>
          "- ".data ++ f.path ++ " (".data ++ f.status.str ++ ")".data))]) ++
    (if diff.additions > 0 ∨ diff.deletions > 0 then
      ["Changes: +".data ++ natToChars diff.additions ++ " -".data ++ natToChars diff.deletions]
     else [])
  if bodyParts.length > 0 then some (joinSep "\n\n".data bodyParts) else none

/-- `generateMessage(diff, options)` (lines 388-415): analyze, describe,
format, optionally generate a body, truncate (`truncateSubject`, lines
797-811, is an identical copy of `truncateMessage`). -/
def generateMessage (diff : GitDiff) (prefs : UserPreferences)
    (opts : GenerationOptions) : CommitMessage :=
  let analysis := analyzeChanges diff
  let description := generateDescription diff analysis.1
  let subject := formatSubject analysis.1 analysis.2 description prefs opts
  { subject := truncateMessage subject opts.maxLength,
    type := analysis.1,
    scope := analysis.2.map String.mk,
    body := if prefs.includeBody then generateBody diff else none,
    isConventional :=
      match prefs.commitStyle with
      | .conventional => true
      | .custom => false }

end FallbackCommitGenerator

/-- The changed file of the spec's single-new-file scenario (the claim
fixes no diff text; it is irrelevant here, since the type decision
short-circuits at `hasNewFiles` before any diff-content check). -/
def c6File : ChangedFile :=
  { path := "src/components/Button.tsx".data, status := .added,
    additions := 50, deletions := 0, diff := [] }

/-- Conventional-style preferences with all analysis settings enabled. -/
def c6Prefs : UserPreferences :=
  { commitStyle := .conventional, includeBody := false,
    customTypes := [.feat, .fix, .docs, .style, .refactor, .test, .chore],
    analysisSettings :=
      { enableFileTypeAnalysis := true, enableScopeInference := true,
        enableImpactAnalysis := true } }

/-- Options with scope inference on and max length 50. -/
def c6Opts : GenerationOptions :=
  { includeScope := true, commitType := none, customTemplate := none, maxLength := 50 }

/-- The diff of the spec's single-new-file scenario. -/
def c6Diff : GitDiff :=
  { files := [c6File], additions := 50, deletions := 0, summary := "1 file added".data }

/-- Claim C6, evaluated on the code at the claimed input: the template
path classifies the file as `feat` and finds the directory `components`,
but `cleanScopeName`'s `/^(src|lib|app|components?)$/i` replace maps
`components` to the empty string, which is falsy in `formatSubject`, so
the produced subject is `"feat: add Button"` and the scope field is the
empty string — not the claimed (and unit-tested, and specified)
`"feat(components): add Button"`. -/
theorem claim_C6 :
    (FallbackCommitGenerator.generateMessage c6Diff c6Prefs c6Opts).subject =
      "feat: add Button".data ∧
    (FallbackCommitGenerator.generateMessage c6Diff c6Prefs c6Opts).scope = some "" ∧
    (FallbackCommitGenerator.generateMessage c6Diff c6Prefs c6Opts).subject ≠
      "feat(components): add Button".data := by
  refine ⟨by decide, by decide, by decide⟩

/-- Claim C9: the non-AI path is deterministic — two runs of the template
generator on equal ChangeSets, preferences and options return the same
CommitMessage (all fields: subject, body, type, scope, isConventional).
`FallbackCommitGenerator.generateMessage` is a pure function of its
inputs: no clock, randomness or mutable state enters the analysis, the
keyword scans, the scope count (whose tie-break is the stable sort's
insertion order) or the formatting. -/
theorem claim_C9 (d1 d2 : GitDiff) (p1 p2 : UserPreferences)
    (o1 o2 : GenerationOptions) (hd : d1 = d2) (hp : p1 = p2) (ho : o1 = o2) :
    FallbackCommitGenerator.generateMessage d1 p1 o1 =
      FallbackCommitGenerator.generateMessage d2 p2 o2 := by
  subst hd
  subst hp
  subst ho
  rfl

/-- Witness for claim C9 at a concrete input, also evaluating the run to
its concrete result. -/
theorem claim_C9_witness :
    FallbackCommitGenerator.generateMessage c6Diff c6Prefs c6Opts =
      FallbackCommitGenerator.generateMessage c6Diff c6Prefs c6Opts ∧
    (FallbackCommitGenerator.generateMessage c6Diff c6Prefs c6Opts).subject =
      "feat: add Button".data :=
  ⟨claim_C9 c6Diff c6Diff c6Prefs c6Prefs c6Opts c6Opts rfl rfl rfl, by decide⟩

/-! ### Message validation (`CommitMessageGeneratorImpl.validateCommitMessage`) -/

/-- The `ValidationError` codes the validator can produce
(src/services/ErrorHandler.ts; `MESSAGE_TOO_LONG` is only ever raised as a
warning, never thrown). -/
inductive VCode
  | EMPTY_MESSAGE | MESSAGE_TOO_LONG | INVALID_COMMIT_FORMAT
  deriving DecidableEq, Repr

/-- JavaScript regex `\w`: ASCII letters, digits, underscore. -/
def isWordChar (c : Char) : Bool :=
  ('a' ≤ c && c ≤ 'z') || ('A' ≤ c && c ≤ 'Z') || ('0' ≤ c && c ≤ '9') || c == '_'

/-- JavaScript regex line terminators, which `.` does not match. -/
def isLineTerm (c : Char) : Bool :=
  c == '\n' || c == '\r' || c == Char.ofNat 0x2028 || c == Char.ofNat 0x2029

/-- `.+$` after the colon-space: nonempty, no line terminators. -/
def descOK (d : List Char) : Bool := !d.isEmpty && d.all (fun c => !isLineTerm c)

/-- The conventional pattern `/^(\w+)(?:\([^)]+\))?: .+$/` as a
deterministic matcher; `\w+` is maximal-munch (a shorter match would have
to be followed by a word character, which can be neither `(` nor `:`), and
`[^)]+` runs to the first `)`. -/
def matchesConventionalPattern (s : List Char) : Bool :=
  let w := s.takeWhile isWordChar
  if w.isEmpty then false
  else
    match s.drop w.length with
    | '(' :: r2 =>
      let content := r2.takeWhile (fun c => !(c == ')'))
      if content.isEmpty then false
      else
        match r2.drop content.length with
        | ')' :: r3 => isPfxOf ": ".data r3 && descOK (r3.drop 2)
        | _ => false
    | rest => isPfxOf ": ".data rest && descOK (rest.drop 2)

/-- `fixCommitType` (lines 518-535): the fixed remap table, keyed on the
lower-cased invalid type. -/
def typeMapFix (t : String) : Option String :=
  let lt := String.mk (lowerStr t.data)
  if lt = "feature" then some "feat"
  else if lt = "bugfix" then some "fix"
  else if lt = "documentation" then some "docs"
  else if lt = "styling" then some "style"
  else if lt = "refactoring" then some "refactor"
  else if lt = "testing" then some "test"
  else if lt = "maintenance" then some "chore"
  else if lt = "build" then some "chore"
  else if lt = "ci" then some "chore"
  else none

/-- The scope part `message.scope ? `(${message.scope})` : ""` of
`fixConventionalFormat` (an empty scope string is falsy in JavaScript). -/
def scopePart : Option String → List Char
  | some sc => if sc.isEmpty then [] else "(".data ++ sc.data ++ ")".data
  | none => []

/-- The pattern half of `validateConventionalFormat` (lines 499-512) plus
`fixConventionalFormat` (lines 540-548): accept a conventional-shaped
subject; otherwise prepend `type(scope): ` when the subject has no colon,
and fail with `INVALID_COMMIT_FORMAT` when it has one. -/
def conventionalShape (msg : CommitMessage) : Except VCode CommitMessage :=
  if matchesConventionalPattern msg.subject then .ok msg
  else if containsChar ':' msg.subject then .error .INVALID_COMMIT_FORMAT
  else .ok { msg with subject := msg.type.data ++ scopePart msg.scope ++ ": ".data ++ msg.subject }

/-- `validateConventionalFormat` (lines 475-513).  When the type is not in
the allowed list and the remap succeeds, the source's
`message.subject.replace(new RegExp(`^${message.type}`), fixedType)` runs
after `message.type` has already been reassigned, so it replaces the fixed
type with itself: the subject is unchanged. -/
def validateConventionalFormat (prefs : UserPreferences) (msg : CommitMessage) :
    Except VCode CommitMessage :=
  if (prefs.customTypes.map CommitType.str).contains msg.type then
    conventionalShape msg
  else
    match typeMapFix msg.type with
    | some f => conventionalShape { msg with type := f }
    | none => .error .INVALID_COMMIT_FORMAT

/-- `validateCommitMessage(message, options)` (lines 397-449), returning the
corrected message together with the list of warning codes surfaced to the
error handler (the source shows `MESSAGE_TOO_LONG` asynchronously and
mutates the message in place). -/
def validateCommitMessage (prefs : UserPreferences) (opts : GenerationOptions)
    (msg : CommitMessage) : Except VCode (CommitMessage × List VCode) :=
  if (jsTrim msg.subject).isEmpty then .error .EMPTY_MESSAGE
  else
    let msg1 := if msg.subject.length > opts.maxLength then
        { msg with subject := truncateMessage msg.subject opts.maxLength }
      else msg
    let warns : List VCode := if msg.subject.length > opts.maxLength then
        [.MESSAGE_TOO_LONG]
      else []
    match prefs.commitStyle with
    | .custom => .ok (msg1, warns)
    | .conventional =>
      match validateConventionalFormat prefs msg1 with
      | .error e => .error e
      | .ok m2 =>
        let m3 := { m2 with isConventional := true }
        let m4 := if m3.subject.length > opts.maxLength then
            { m3 with subject := truncateMessage m3.subject opts.maxLength }
          else m3
        .ok (m4, warns)

/-- A successful float comparison forces a positive last-space index. -/
lemma gtThr07_pos {s : Int} {max : Nat} (h : gtThr07 s max = true) : 0 < s := by
  unfold gtThr07 at h
  simp only [decide_eq_true_eq] at h
  have h0 : (0 : Int) ≤ ((jsMul07 max).1 : Int) * 2 ^ (jsMul07 max).2 :=
    mul_nonneg (Int.natCast_nonneg _) (by positivity)
  omega

/-- Truncation always fits the limit (for limits of at least 3). -/
lemma truncate_len_le (m : List Char) (max : Nat) (h3 : 3 ≤ max) :
    (truncateMessage m max).length ≤ max := by
  unfold truncateMessage
  by_cases h1 : m.length ≤ max
  · rw [if_pos h1]; exact h1
  · rw [if_neg h1]
    by_cases h2 : gtThr07 (lastSpaceIdx (m.take (max - 3))) max = true
    · rw [if_pos h2]
      have hpos := gtThr07_pos h2
      have hlt := lastSpaceIdx_lt (m.take (max - 3))
      rw [List.length_take] at hlt
      simp only [List.length_append, List.length_take, dots, List.length_cons,
        List.length_nil]
      omega
    · rw [if_neg h2]
      simp only [List.length_append, List.length_take, dots, List.length_cons,
        List.length_nil]
      omega

/-- `conventionalShape` can only fail with `INVALID_COMMIT_FORMAT`. -/
lemma conventionalShape_error {msg : CommitMessage} {e : VCode}
    (h : conventionalShape msg = .error e) : e = .INVALID_COMMIT_FORMAT := by
  unfold conventionalShape at h
  by_cases h1 : matchesConventionalPattern msg.subject = true
  · rw [if_pos h1] at h; cases h
  · rw [if_neg h1] at h
    by_cases h2 : containsChar ':' msg.subject = true
    · rw [if_pos h2] at h
      injection h with h
      exact h.symm
    · rw [if_neg h2] at h; cases h

/-- `validateConventionalFormat` can only fail with
`INVALID_COMMIT_FORMAT`. -/
lemma validateConventionalFormat_error {prefs : UserPreferences}
    {msg : CommitMessage} {e : VCode}
    (h : validateConventionalFormat prefs msg = .error e) : e = .INVALID_COMMIT_FORMAT := by
  unfold validateConventionalFormat at h
  by_cases h1 : ((prefs.customTypes.map CommitType.str).contains msg.type) = true
  · rw [if_pos h1] at h
    exact conventionalShape_error h
  · rw [if_neg h1] at h
    cases hmap : typeMapFix msg.type with
    | some f =>
      rw [hmap] at h
      exact conventionalShape_error h
    | none =>
      rw [hmap] at h
      injection h with h
      exact h.symm

/-- Claim C8 (amended): `validateCommitMessage` fails with `EMPTY_MESSAGE`
exactly when the subject is empty after trimming (checked before any
truncation, so truncation can never repair it); every other failure is
`INVALID_COMMIT_FORMAT` — an over-long subject is never a failure: on
success it has been truncated in place to the limit and surfaced only as a
`MESSAGE_TOO_LONG` warning. -/
theorem claim_C8 (prefs : UserPreferences) (opts : GenerationOptions)
    (msg : CommitMessage) (hmax : 20 ≤ opts.maxLength) :
    (validateCommitMessage prefs opts msg = .error .EMPTY_MESSAGE ↔
      (jsTrim msg.subject).isEmpty = true) ∧
    (∀ e, validateCommitMessage prefs opts msg = .error e → e ≠ .MESSAGE_TOO_LONG) ∧
    (∀ out, validateCommitMessage prefs opts msg = .ok out →
      opts.maxLength < msg.subject.length →
      VCode.MESSAGE_TOO_LONG ∈ out.2 ∧ out.1.subject.length ≤ opts.maxLength) ∧
    ((jsTrim msg.subject).isEmpty = false → prefs.commitStyle = .custom →
      opts.maxLength < msg.subject.length →
      validateCommitMessage prefs opts msg =
        .ok ({ msg with subject := truncateMessage msg.subject opts.maxLength },
          [.MESSAGE_TOO_LONG])) := by
  by_cases hempty : (jsTrim msg.subject).isEmpty = true
  · have hval : validateCommitMessage prefs opts msg = .error .EMPTY_MESSAGE := by
      unfold validateCommitMessage
      rw [if_pos hempty]
    refine ⟨⟨fun _ => hempty, fun _ => hval⟩, ?_, ?_, ?_⟩
    · intro e he
      rw [hval] at he
      injection he with h
      subst h
      decide
    · intro out hout
      rw [hval] at hout
      cases hout
    · intro hne2 _ _
      rw [hempty] at hne2
      cases hne2
  · have hne : (jsTrim msg.subject).isEmpty = false := by
      simpa using hempty
    cases hstyle : prefs.commitStyle with
    | custom =>
      by_cases hlen : msg.subject.length > opts.maxLength
      · have hval : validateCommitMessage prefs opts msg =
            .ok ({ msg with subject := truncateMessage msg.subject opts.maxLength },
              [.MESSAGE_TOO_LONG]) := by
          unfold validateCommitMessage
          rw [if_neg hempty]
          simp only [hstyle, if_pos hlen]
        refine ⟨?_, ?_, ?_, ?_⟩
        · rw [hval]
          constructor
          · intro h; cases h
          · intro h; rw [h] at hne; cases hne
        · intro e he
          rw [hval] at he
          cases he
        · intro out hout _
          rw [hval] at hout
          injection hout with h
          subst h
          refine ⟨List.mem_singleton.mpr rfl, ?_⟩
          exact truncate_len_le msg.subject opts.maxLength (by omega)
        · intro _ _ _
          exact hval
      · have hval : validateCommitMessage prefs opts msg = .ok (msg, []) := by
          unfold validateCommitMessage
          rw [if_neg hempty]
          simp only [hstyle, if_neg hlen]
        refine ⟨?_, ?_, ?_, ?_⟩
        · rw [hval]
          constructor
          · intro h; cases h
          · intro h; rw [h] at hne; cases hne
        · intro e he
          rw [hval] at he
          cases he
        · intro out _ hlen2
          exact absurd hlen2 hlen
        · intro _ _ hlen2
          exact absurd hlen2 hlen
    | conventional =>
      by_cases hlen : msg.subject.length > opts.maxLength
      · cases hv : validateConventionalFormat prefs
            { msg with subject := truncateMessage msg.subject opts.maxLength } with
        | error e0 =>
          have hval : validateCommitMessage prefs opts msg = .error e0 := by
            unfold validateCommitMessage
            rw [if_neg hempty]
            simp only [hstyle, if_pos hlen, hv]
          have he0 : e0 = .INVALID_COMMIT_FORMAT := validateConventionalFormat_error hv
          refine ⟨?_, ?_, ?_, ?_⟩
          · rw [hval]
            constructor
            · intro h
              injection h with h
              rw [he0] at h
              cases h
            · intro h; rw [h] at hne; cases hne
          · intro e he
            rw [hval] at he
            injection he with h
            subst h
            rw [he0]
            decide
          · intro out hout _
            rw [hval] at hout
            cases hout
          · intro _ hcust _
            cases hcust
        | ok m2 =>
          have hval : validateCommitMessage prefs opts msg =
              .ok ((if ({ m2 with isConventional := true } : CommitMessage).subject.length > opts.maxLength then
                  { ({ m2 with isConventional := true } : CommitMessage) with
                    subject := truncateMessage ({ m2 with isConventional := true } : CommitMessage).subject opts.maxLength }
                else { m2 with isConventional := true }), [.MESSAGE_TOO_LONG]) := by
            unfold validateCommitMessage
            rw [if_neg hempty]
            simp only [hstyle, if_pos hlen, hv]
          refine ⟨?_, ?_, ?_, ?_⟩
          · rw [hval]
            constructor
            · intro h; cases h
            · intro h; rw [h] at hne; cases hne
          · intro e he
            rw [hval] at he
            cases he
          · intro out hout _
            rw [hval] at hout
            injection hout with h
            subst h
            refine ⟨List.mem_singleton.mpr rfl, ?_⟩
            by_cases hl3 : ({ m2 with isConventional := true } : CommitMessage).subject.length > opts.maxLength
            · rw [if_pos hl3]
              exact truncate_len_le _ opts.maxLength (by omega)
            · rw [if_neg hl3]
              exact Nat.le_of_not_lt hl3
          · intro _ hcust _
            cases hcust
      · cases hv : validateConventionalFormat prefs msg with
        | error e0 =>
          have hval : validateCommitMessage prefs opts msg = .error e0 := by
            unfold validateCommitMessage
            rw [if_neg hempty]
            simp only [hstyle, if_neg hlen, hv]
          have he0 : e0 = .INVALID_COMMIT_FORMAT := validateConventionalFormat_error hv
          refine ⟨?_, ?_, ?_, ?_⟩
          · rw [hval]
            constructor
            · intro h
              injection h with h
              rw [he0] at h
              cases h
            · intro h; rw [h] at hne; cases hne
          · intro e he
            rw [hval] at he
            injection he with h
            subst h
            rw [he0]
            decide
          · intro out hout _
            rw [hval] at hout
            cases hout
          · intro _ hcust _
            cases hcust
        | ok m2 =>
          refine ⟨?_, ?_, ?_, ?_⟩
          · have hval : validateCommitMessage prefs opts msg ≠ .error .EMPTY_MESSAGE := by
              unfold validateCommitMessage
              rw [if_neg hempty]
              simp only [hstyle, if_neg hlen, hv]
              intro h
              cases h
            constructor
            · intro h; exact absurd h hval
            · intro h; rw [h] at hne; cases hne
          · intro e he
            revert he
            unfold validateCommitMessage
            rw [if_neg hempty]
            simp only [hstyle, if_neg hlen, hv]
            intro he
            cases he
          · intro out _ hlen2
            exact absurd hlen2 hlen
          · intro _ hcust _
            cases hcust

/-- A concrete message for the C8 witness. -/
def c8Msg : CommitMessage :=
  { subject := "feat: add feature".data, body := none, type := "feat",
    scope := none, isConventional := true }

/-- Witness for claim C8 at a concrete input. -/
theorem claim_C8_witness :
    20 ≤ c6Opts.maxLength ∧
    (validateCommitMessage c6Prefs c6Opts c8Msg = .error .EMPTY_MESSAGE ↔
      (jsTrim c8Msg.subject).isEmpty = true) :=
  ⟨by decide, (claim_C8 c6Prefs c6Opts c8Msg (by decide)).1⟩

/-! ### Claim C7: error propagation through the fallback orchestrator

The extension has two unrelated error hierarchies: ErrorHandler.ts defines
`ExtensionError extends Error` with subclasses `GitError`, `AIError`,
`ConfigurationError`, `ValidationError`; AIService.ts separately defines
`AIServiceError extends Error` with subclasses `AIServiceUnavailableError`,
`AIRateLimitError`, `AIInvalidResponseError`.  `generateWithFallback`
catches with `error instanceof AIError` — which no `AIServiceError` ever
satisfies. -/

/-- The extension's JavaScript error classes. -/
inductive JsErrorClass
  | error | extensionError | gitError | aiError | configurationError
  | validationError | aiServiceError | aiServiceUnavailableError
  | aiRateLimitError | aiInvalidResponseError
  deriving DecidableEq, Repr

/-- The `extends` edge of each class (ErrorHandler.ts lines 38-375,
AIService.ts lines 9-32). -/
def parentClass : JsErrorClass → Option JsErrorClass
  | .error => none
  | .extensionError => some .error
  | .gitError => some .extensionError
  | .aiError => some .extensionError
  | .configurationError => some .extensionError
  | .validationError => some .extensionError
  | .aiServiceError => some .error
  | .aiServiceUnavailableError => some .aiServiceError
  | .aiRateLimitError => some .aiServiceError
  | .aiInvalidResponseError => some .aiServiceError

/-- The strict ancestors of a class, walking `extends` edges (fuel bounds
the walk; every chain here has length at most 3). -/
def ancestorChain : Nat → JsErrorClass → List JsErrorClass
  | 0, _ => []
  | fuel + 1, c =>
    match parentClass c with
    | none => []
    | some p => p :: ancestorChain fuel p

/-- JavaScript `instanceof`: the class itself or one of its ancestors. -/
def instanceOfB (target c : JsErrorClass) : Bool :=
  c == target || (ancestorChain 10 c).contains target

/-- A thrown JavaScript error: its class and its `code` field. -/
structure ThrownError where
  cls : JsErrorClass
  code : String
  deriving DecidableEq, Repr

/-- `generateWithFallback` from src/services/CommitMessageGenerator.ts
lines 170-193: await the AI path; catch an error that is
`instanceof AIError`, handle it and return the template fallback
(`generateWithTemplate`, lines 233-251, is total — it catches any error of
the fallback generator and returns `createBasicCommitMessage`); re-throw
anything else. -/
def generateWithFallback (aiOutcome : Except ThrownError CommitMessage)
    (templateMsg : CommitMessage) : Except ThrownError CommitMessage :=
  match aiOutcome with
  | .ok m => .ok m
  | .error e => if instanceOfB .aiError e.cls then .ok templateMsg else .error e

/-- The error classes `KiroAIService.generateCommitMessage` throws
(src/services/AIService.ts lines 104-149): only `AIServiceError` and its
subclasses. -/
def aiServiceThrowClasses : List JsErrorClass :=
  [.aiServiceUnavailableError, .aiRateLimitError, .aiInvalidResponseError, .aiServiceError]

/-- A concrete deterministic fallback message for the C7 theorems. -/
def c7Fallback : CommitMessage :=
  { subject := "chore: update 1 files".data, body := none, type := "chore",
    scope := none, isConventional := true }

/-- Claim C7 counterexample: the `AIServiceUnavailableError` actually
thrown by the AI service's `generateCommitMessage` is not an
`instanceof AIError` (its chain is AIServiceError → Error), so the
orchestrator re-throws it to the caller instead of returning the fallback
message. -/
theorem claim_C7_counterexample :
    aiServiceThrowClasses.contains JsErrorClass.aiServiceUnavailableError = true ∧
    instanceOfB .aiError JsErrorClass.aiServiceUnavailableError = false ∧
    generateWithFallback
        (.error { cls := .aiServiceUnavailableError, code := "SERVICE_UNAVAILABLE" })
        c7Fallback =
      .error { cls := .aiServiceUnavailableError, code := "SERVICE_UNAVAILABLE" } ∧
    generateWithFallback
        (.error { cls := .aiServiceUnavailableError, code := "SERVICE_UNAVAILABLE" })
        c7Fallback ≠ .ok c7Fallback := by
  refine ⟨rfl, rfl, rfl, ?_⟩
  intro h
  exact Except.noConfusion h

/-- Claim C7 (amended): the fallback orchestrator converts exactly the
errors that are `instanceof` ErrorHandler's `AIError` class into the
deterministic fallback message; every other error raised in the AI path —
including the `AIServiceError` subclasses the AI service actually throws
and `ValidationError` from validating the AI message — propagates to the
caller. -/
theorem claim_C7_amended (e : ThrownError) (m : CommitMessage) :
    (instanceOfB .aiError e.cls = true → generateWithFallback (.error e) m = .ok m) ∧
    (instanceOfB .aiError e.cls = false → generateWithFallback (.error e) m = .error e) := by
  constructor
  · intro h
    simp [generateWithFallback, h]
  · intro h
    simp [generateWithFallback, h]

/-- Witness for the amended claim C7 at a concrete input. -/
theorem claim_C7_amended_witness :
    instanceOfB .aiError JsErrorClass.aiError = true ∧
    generateWithFallback (.error { cls := .aiError, code := "SERVICE_UNAVAILABLE" })
        c7Fallback = .ok c7Fallback :=
  ⟨by decide,
    (claim_C7_amended { cls := .aiError, code := "SERVICE_UNAVAILABLE" } c7Fallback).1 (by decide)⟩

/-- Witness instantiating claim C1 at a concrete input. -/
theorem claim_C1_witness :
    assessImpactLevel 5 5 2 = .major ↔ (2 > 10 ∨ 5 + 5 > 200) :=
  (claim_C1 5 5 2).1

/-- Witness instantiating claim C10 at a concrete input. -/
theorem claim_C10_witness :
    analyzeChanges { files := [], additions := 0, deletions := 0, summary := [] } =
      { commitType := .chore, scope := none,
        description := "No changes detected".data,
        impactLevel := .minor, fileTypes := [] } :=
  claim_C10 0 0 []
